import Mathlib

/-!
Shallow embedding of the inter-agent coordination protocol of the
code-analyzer repository.

The `CoordinationManager` class (src/src/utils/analysis-metrics.js,
lines 350-547) is embedded as explicit state passing over `CMState`
and a file-system map `FS` from paths to per-agent documents.
The concurrent fan-out of `Promise.all` over agent pairs is modelled
sequentially in pair order; this is faithful for the properties under
study because each pair increments only its own round counter, the
round boundary is a synchronization barrier in the source, and the
per-pair document reads filter on disjoint target agents.

The comment-ledger codec (`MarkdownManager`: readFile, parseComments,
addComment, respondToComment, createWorkingFile) is not among the
provided sources; those operations are modelled from the spec and each
carries a doc comment saying so.  Ghost instrumentation fields
(`attempts`, `answerCalls`) record the trace of pair-processing
invocations and answer-production calls; they influence no control flow.
-/

deriving instance DecidableEq for Except

/-- Status of a Comment: the spec enum with values pending and resolved. -/
inductive CommentStatus where
  | pending
  | resolved
deriving DecidableEq

/-- A directed inter-agent message, per the data model: id, askingAgent,
targetAgent, question, context, round, status, response. -/
structure Comment where
  id : Nat
  askingAgent : String
  targetAgent : String
  question : String
  context : String
  round : Nat
  status : CommentStatus
  response : Option String
deriving DecidableEq

/-- A per-agent working-memory document: its comment ledger, plus a flag
recording whether its structural markers are corrupted (in which case
reads and writes raise StorageError). -/
structure Doc where
  ledger : List Comment
  corrupt : Bool
deriving DecidableEq

/-- The durable store: an association list from file path to document. -/
abbrev FS := List (String × Doc)

def lookupDoc : FS → String → Option Doc
  | [], _ => none
  | (p, d) :: rest, path => if p = path then some d else lookupDoc rest path

def updateDoc : FS → String → Doc → FS
  | [], _, _ => []
  | (p, d) :: rest, path, newDoc =>
      if p = path then (p, newDoc) :: rest else (p, d) :: updateDoc rest path newDoc

/-- An agent facade as consumed by the coordination core: a name, the path
of its working document, and its answer production
(`respondToQuestion(question, askingAgent)`), modelled as a fallible
function so that answer-producer failures can be injected. -/
structure Agent where
  name : String
  workingFile : String
  respond : Comment → String → Except String String

/-- Modelled from the spec: `MarkdownManager.readFile` followed by
`MarkdownManager.parseComments` (the codec source is not provided).
Reading an absent or structurally malformed document raises a
StorageError; otherwise the parsed ledger is returned. -/
def readDocComments (fs : FS) (path : String) : Except String (List Comment) :=
  match lookupDoc fs path with
  | none => Except.error ("StorageError: unreadable document " ++ path)
  | some d =>
      if d.corrupt then Except.error ("StorageError: malformed document " ++ path)
      else Except.ok d.ledger

/-- Modelled from the spec: the single-comment resolution update performed
by `resolveComment` — a pending Comment becomes resolved with the given
response; the status transitions exactly once and never backward, so a
Comment that is already resolved is left unchanged. -/
def resolveComment (c : Comment) (response : String) : Comment :=
  if c.status = CommentStatus.pending then
    { c with status := CommentStatus.resolved, response := some response }
  else c

/-- Modelled from the spec: locate the Comment by `id` in a ledger and
resolve it; a no-op when the id is absent. -/
def resolveInLedger (ledger : List Comment) (id : Nat) (response : String) :
    List Comment :=
  ledger.map (fun c => if c.id = id then resolveComment c response else c)

/-- Modelled from the spec: `MarkdownManager.respondToComment(file, id,
response)` (the codec source is not provided).  It locates the Comment by
id in the document at `path` and records the response; it raises a
StorageError when the document is absent or malformed, and is a no-op on
the ledger when the id is absent or the Comment is already resolved. -/
def respondToComment (fs : FS) (path : String) (id : Nat) (response : String) :
    Except String FS :=
  match lookupDoc fs path with
  | none => Except.error ("StorageError: unreadable document " ++ path)
  | some d =>
      if d.corrupt then Except.error ("StorageError: malformed document " ++ path)
      else Except.ok (updateDoc fs path { d with ledger := resolveInLedger d.ledger id response })

/-- Modelled from the spec: `MarkdownManager.addComment(file, targetAgent,
question, context, round)` as delegated to by `BaseAgent.addComment`
(src/unnamed/part_006, lines 689-707): appends a new Comment with
status pending and a fresh opaque id to the asking agent's ledger;
raises a StorageError when the document is absent or malformed. -/
def addComment (fs : FS) (path askingAgent targetAgent question context : String)
    (round : Nat) : Except String FS :=
  match lookupDoc fs path with
  | none => Except.error ("StorageError: unreadable document " ++ path)
  | some d =>
      if d.corrupt then Except.error ("StorageError: malformed document " ++ path)
      else
        Except.ok (updateDoc fs path
          { d with ledger := d.ledger ++
              [{ id := d.ledger.length + 1, askingAgent := askingAgent,
                 targetAgent := targetAgent, question := question,
                 context := context, round := round,
                 status := CommentStatus.pending, response := none }] })

/-- Modelled from the spec: `MarkdownManager.createWorkingFile(name,
repoPath, outputDir)` (the codec source is not provided) provisions the
per-agent document at outputDir/name-analysis.md, the path scheme that
`findAgentFile` in the coordination manager evidently pairs with. -/
def createWorkingFilePath (agentName outputDir : String) : String :=
  outputDir ++ "/" ++ agentName ++ "-analysis.md"

/-- An entry of the error log: either a coordination-timeout record
(pair key, round budget, listed questions) or a caught-error record. -/
inductive LogEntry where
  | timeout (pairKey : String) (maxRoundsReached : Nat) (questions : List Comment)
  | failure (message : String)
deriving DecidableEq

/-- Ghost trace record of one answer-production invocation. -/
structure CallRecord where
  answeringAgent : String
  commentId : Nat
  commentRound : Nat
  calledInRound : Nat
deriving DecidableEq

/-- Build a trace record of one answer-production invocation. -/
def mkCallRecord (answeringAgent : String) (commentId commentRound calledInRound : Nat) :
    CallRecord :=
  { answeringAgent := answeringAgent, commentId := commentId,
    commentRound := commentRound, calledInRound := calledInRound }

/-- State of a CoordinationManager instance (constructor, lines 356-361):
maxRounds, currentRound, roundLimits, errorLogPath; the error log is kept
structurally rather than as rendered markdown.  `attempts` and
`answerCalls` are ghost instrumentation recording the trace. -/
structure CMState where
  maxRounds : Nat
  currentRound : Nat
  roundLimits : List (String × Nat)
  errorLogPath : String
  errorLog : List LogEntry
  attempts : Nat
  answerCalls : List CallRecord
deriving DecidableEq

/-- The constructor `new CoordinationManager(outputDir = 'output')`:
maxRounds is assigned the literal 3, currentRound starts at 1, the
round-limit map is empty, and outputDir is used only to form the
error-log path. -/
def mkCoordinationManager (outputDir : String) : CMState :=
  { maxRounds := 3, currentRound := 1, roundLimits := [],
    errorLogPath := outputDir ++ "/error-log.md",
    errorLog := [], attempts := 0, answerCalls := [] }

/-- The default-argument form `new CoordinationManager()`. -/
def mkCoordinationManagerDefault : CMState :=
  mkCoordinationManager "output"

def lookupCount : List (String × Nat) → String → Nat
  | [], _ => 0
  | (k, v) :: rest, key => if k = key then v else lookupCount rest key

def setCount : List (String × Nat) → String → Nat → List (String × Nat)
  | [], key, v => [(key, v)]
  | (k, w) :: rest, key, v =>
      if k = key then (key, v) :: rest else (k, w) :: setCount rest key v

/-- `getRoundCount(pairKey)`: the map entry, defaulting to 0. -/
def getRoundCount (st : CMState) (key : String) : Nat :=
  lookupCount st.roundLimits key

/-- `incrementRoundCount(pairKey)`. -/
def incrementRoundCount (st : CMState) (key : String) : CMState :=
  { st with roundLimits := setCount st.roundLimits key (getRoundCount st key + 1) }

/-- The pair key string used by `startCoordinationRound`. -/
def pairKey (a1 a2 : Agent) : String :=
  a1.name ++ "-" ++ a2.name

/-- `findAgentFile(agentName)`: the constant join of 'output' with the
agent's analysis file name (line 452-454). -/
def findAgentFile (agentName : String) : String :=
  "output" ++ "/" ++ agentName ++ "-analysis.md"

/-- `logCoordinationTimeout(agentPair, questions)`: appends a timeout
entry carrying the pair key, the round budget and the given question
list to the error log. -/
def logCoordinationTimeout (st : CMState) (key : String)
    (questions : List Comment) : CMState :=
  { st with errorLog := st.errorLog ++ [LogEntry.timeout key st.maxRounds questions] }

/-- `logError(message)`: appends a caught-error entry. -/
def logError (st : CMState) (message : String) : CMState :=
  { st with errorLog := st.errorLog ++ [LogEntry.failure message] }

/-- `getAgentPairs(agents)`: all unordered pairs in the nested-loop order
of the source (indices i < j). -/
def getAgentPairs : List Agent → List (Agent × Agent)
  | [] => []
  | a :: rest => rest.map (fun b => (a, b)) ++ getAgentPairs rest

/-- `checkForQuestions(fromAgent, toAgentName)`: read the asking agent's
document and keep the comments that target the given agent, are pending,
and whose round field equals the manager's current round (lines
425-434). -/
def checkForQuestions (st : CMState) (fs : FS) (fromAgent : Agent)
    (toAgentName : String) : Except String (List Comment) :=
  match readDocComments fs fromAgent.workingFile with
  | Except.error e => Except.error e
  | Except.ok comments =>
      Except.ok (comments.filter (fun c =>
        decide (c.targetAgent = toAgentName ∧ c.status = CommentStatus.pending ∧
          c.round = st.currentRound)))

/-- `processQuestions(answeringAgent, questions, askingAgentName)`: for
each question, ask the answering agent to respond and write the response
into the asking agent's file located by `findAgentFile`; any failure of a
single question is caught, logged and does not stop the remaining
questions (lines 436-450).  Each answer-production invocation is recorded
in the ghost `answerCalls` trace. -/
def processQuestions (answeringAgent : Agent) (questions : List Comment)
    (askingAgentName : String) (st : CMState) (fs : FS) : CMState × FS :=
  match questions with
  | [] => (st, fs)
  | q :: rest =>
      let st1 := { st with answerCalls := st.answerCalls ++
        [mkCallRecord answeringAgent.name q.id q.round st.currentRound] }
      match answeringAgent.respond q askingAgentName with
      | Except.error msg =>
          processQuestions answeringAgent rest askingAgentName
            (logError st1 ("Error processing question from " ++ askingAgentName ++
              " to " ++ answeringAgent.name ++ ": " ++ msg)) fs
      | Except.ok response =>
          match respondToComment fs (findAgentFile askingAgentName) q.id response with
          | Except.error msg =>
              processQuestions answeringAgent rest askingAgentName
                (logError st1 ("Error processing question from " ++ askingAgentName ++
                  " to " ++ answeringAgent.name ++ ": " ++ msg)) fs
          | Except.ok fs' =>
              processQuestions answeringAgent rest askingAgentName st1 fs'

/-- One direction of `facilitateCoordination`: when the filtered question
list is non-empty, process it and increment the pair's round counter. -/
def directionStep (answering asking : Agent) (key : String) (st : CMState)
    (fs : FS) (qs : List Comment) : CMState × FS :=
  if 0 < qs.length then
    let r := processQuestions answering qs asking.name st fs
    (incrementRoundCount r.1 key, r.2)
  else (st, fs)

/-- `facilitateCoordination(agent1, agent2, pairKey)` (lines 405-423):
each direction in turn reads the asking side's pending questions for the
current round, processes them, and increments the pair's round counter
when the direction had any; the surrounding try/catch turns a storage
failure into a logged error that keeps the effects made so far. -/
def facilitateCoordination (a1 a2 : Agent) (key : String) (st : CMState)
    (fs : FS) : CMState × FS :=
  match checkForQuestions st fs a1 a2.name with
  | Except.error msg =>
      (logError st ("Coordination error between " ++ a1.name ++ " and " ++
        a2.name ++ ": " ++ msg), fs)
  | Except.ok q12 =>
      let step1 := directionStep a2 a1 key st fs q12
      match checkForQuestions step1.1 step1.2 a2 a1.name with
      | Except.error msg =>
          (logError step1.1 ("Coordination error between " ++ a1.name ++ " and " ++
            a2.name ++ ": " ++ msg), step1.2)
      | Except.ok q21 => directionStep a1 a2 key step1.1 step1.2 q21

/-- The per-round pair loop of `startCoordinationRound` (lines 369-382):
a pair whose round counter has reached maxRounds is skipped with a
timeout entry logged for an empty question list; otherwise the pair is
facilitated.  The ghost `attempts` counter records each facilitation. -/
def processPairs : List (Agent × Agent) → CMState → FS → CMState × FS
  | [], st, fs => (st, fs)
  | (a1, a2) :: rest, st, fs =>
      let key := pairKey a1 a2
      if st.maxRounds ≤ getRoundCount st key then
        processPairs rest (logCoordinationTimeout st key []) fs
      else
        let r := facilitateCoordination a1 a2 key
          { st with attempts := st.attempts + 1 } fs
        processPairs rest r.1 r.2

/-- `checkPendingQuestions(agents)` (lines 456-468): collect every
pending comment from every agent's document, in agent order; a document
read failure propagates (it is not caught in the source). -/
def checkPendingQuestions (fs : FS) : List Agent → Except String (List Comment)
  | [] => Except.ok []
  | a :: rest =>
      match readDocComments fs a.workingFile with
      | Except.error e => Except.error e
      | Except.ok comments =>
          match checkPendingQuestions fs rest with
          | Except.error e => Except.error e
          | Except.ok acc =>
              Except.ok (comments.filter
                (fun c => decide (c.status = CommentStatus.pending)) ++ acc)

/-- The round loop of `startCoordinationRound` (lines 363-390): process
all pairs, then recurse into the next round exactly when currentRound is
below maxRounds and some pending comment remains anywhere (the function
returns the literal true on exit; a convergence-check read failure
rejects the run).  Fuel-indexed for structural recursion; `none` marks
fuel exhaustion and is proved unreachable for the fuel supplied by
`startCoordinationRound`. -/
def coordLoop (agents : List Agent) :
    Nat → CMState → FS → Option (Except String Bool × CMState × FS)
  | 0, _, _ => none
  | fuel + 1, st, fs =>
      let r := processPairs (getAgentPairs agents) st fs
      if r.1.currentRound < r.1.maxRounds then
        match checkPendingQuestions r.2 agents with
        | Except.error e => some (Except.error e, r.1, r.2)
        | Except.ok pending =>
            if 0 < pending.length then
              coordLoop agents fuel { r.1 with currentRound := r.1.currentRound + 1 } r.2
            else some (Except.ok true, r.1, r.2)
      else some (Except.ok true, r.1, r.2)

/-- `startCoordinationRound(agents)`: run the round loop from the
manager's current state with enough fuel for every reachable round. -/
def startCoordinationRound (agents : List Agent) (st : CMState) (fs : FS) :
    Option (Except String Bool × CMState × FS) :=
  coordLoop agents (st.maxRounds + 1) st fs

/-! Concrete agents, documents and runs used by the witnesses and
counterexamples. -/

/-- A pending Comment with fixed question and context text. -/
def mkComment (id : Nat) (asking target : String) (round : Nat) : Comment :=
  { id := id, askingAgent := asking, targetAgent := target, question := "q",
    context := "ctx", round := round, status := CommentStatus.pending,
    response := none }

/-- The resolved version of a Comment built by mkComment. -/
def mkResolved (id : Nat) (asking target : String) (round : Nat) (resp : String) : Comment :=
  { mkComment id asking target round with status := CommentStatus.resolved, response := some resp }

/-- An agent whose answer production always succeeds. -/
def agentOk (name : String) : Agent :=
  { name := name, workingFile := createWorkingFilePath name "output",
    respond := fun _ _ => Except.ok ("answer from " ++ name) }

/-- An agent whose answer production always throws. -/
def agentFail (name : String) : Agent :=
  { name := name, workingFile := createWorkingFilePath name "output",
    respond := fun _ _ => Except.error "answer producer failed" }

/-- Fallback manager state used by the run projections below. -/
def emptyCM : CMState :=
  { maxRounds := 0, currentRound := 0, roundLimits := [], errorLogPath := "",
    errorLog := [], attempts := 0, answerCalls := [] }

/-- Whether a run completed and returned the value true. -/
def runRetOk : Option (Except String Bool × CMState × FS) → Bool
  | some (Except.ok b, _, _) => b
  | _ => false

/-- Final manager state of a run. -/
def runFinal : Option (Except String Bool × CMState × FS) → CMState
  | some (_, st, _) => st
  | none => emptyCM

/-- Final file system of a run. -/
def runFS : Option (Except String Bool × CMState × FS) → FS
  | some (_, _, fs) => fs
  | none => []

/-- Total number of pending Comments across all documents. -/
def pendingTotal (fs : FS) : Nat :=
  (fs.map (fun p =>
    (p.2.ledger.filter (fun c => decide (c.status = CommentStatus.pending))).length)).sum

/-- Two agents whose answer production always fails. -/
def agentsAB : List Agent := [agentFail "A", agentFail "B"]

/-- Documents for the retry scenario: A holds one pending question for B
raised in round 1; B's document is empty. -/
def fsC2 : FS :=
  [("output/A-analysis.md", { ledger := [mkComment 1 "A" "B" 1], corrupt := false }),
   ("output/B-analysis.md", { ledger := [], corrupt := false })]

/-- Run of the retry scenario: B's answer production always throws, so the
round-1 question stays pending while rounds 2 and 3 run. -/
def runC2 : Option (Except String Bool × CMState × FS) :=
  startCoordinationRound agentsAB mkCoordinationManagerDefault fsC2

/-- Documents for the budget scenario: questions in both directions for
rounds 1 and 2, with all answer production failing. -/
def fsC3 : FS :=
  [("output/A-analysis.md",
    { ledger := [mkComment 1 "A" "B" 1, mkComment 2 "A" "B" 2], corrupt := false }),
   ("output/B-analysis.md",
    { ledger := [mkComment 3 "B" "A" 1, mkComment 4 "B" "A" 2], corrupt := false })]

/-- Run of the budget scenario: both directions increment the pair counter
in rounds 1 and 2, driving it past maxRounds. -/
def runC3 : Option (Except String Bool × CMState × FS) :=
  startCoordinationRound agentsAB mkCoordinationManagerDefault fsC3

/-- Documents for the fan-out scenario: A asks B (answer production for B
fails) and C asks A (answer production for A succeeds). -/
def fsC5 : FS :=
  [("output/A-analysis.md", { ledger := [mkComment 1 "A" "B" 1], corrupt := false }),
   ("output/B-analysis.md", { ledger := [], corrupt := false }),
   ("output/C-analysis.md", { ledger := [mkComment 2 "C" "A" 1], corrupt := false })]

/-- The three fan-out agents: only B's answer production throws. -/
def agentsC5 : List Agent := [agentOk "A", agentFail "B", agentOk "C"]

/-- A single pair-processing round of the fan-out scenario. -/
def roundC5 : CMState × FS :=
  processPairs (getAgentPairs agentsC5) mkCoordinationManagerDefault fsC5

/-- The complete fan-out run. -/
def runC5 : Option (Except String Bool × CMState × FS) :=
  startCoordinationRound agentsC5 mkCoordinationManagerDefault fsC5

/-- Two agents whose answer production always succeeds. -/
def agentsOkAB : List Agent := [agentOk "A", agentOk "B"]

/-- Documents for the convergence scenario: A holds one pending question
for B raised in round 1. -/
def fsC6 : FS :=
  [("output/A-analysis.md", { ledger := [mkComment 1 "A" "B" 1], corrupt := false }),
   ("output/B-analysis.md", { ledger := [], corrupt := false })]

/-- Run of the convergence scenario: the question resolves in round 1 and
no second round starts. -/
def runC6 : Option (Except String Bool × CMState × FS) :=
  startCoordinationRound agentsOkAB mkCoordinationManagerDefault fsC6

/-- Documents with no comments at all. -/
def fsC7 : FS :=
  [("output/A-analysis.md", { ledger := [], corrupt := false }),
   ("output/B-analysis.md", { ledger := [], corrupt := false })]

/-- Run over comment-free documents: zero exchanges, zero unresolved. -/
def runC7 : Option (Except String Bool × CMState × FS) :=
  startCoordinationRound agentsOkAB mkCoordinationManagerDefault fsC7

/-- An agent initialized with outputDir custom, so its working document
lives at custom/A-analysis.md. -/
def agentA10 : Agent :=
  { name := "A", workingFile := createWorkingFilePath "A" "custom",
    respond := fun _ _ => Except.ok "answer from A" }

/-- A second agent under outputDir custom. -/
def agentB10 : Agent :=
  { name := "B", workingFile := createWorkingFilePath "B" "custom",
    respond := fun _ _ => Except.ok "answer from B" }

/-- Documents under outputDir custom: A holds one pending question for B;
no document exists at the fixed path output/A-analysis.md. -/
def fsC10 : FS :=
  [("custom/A-analysis.md", { ledger := [mkComment 1 "A" "B" 1], corrupt := false }),
   ("custom/B-analysis.md", { ledger := [], corrupt := false })]

/-- Run with outputDir custom: the answer write is directed at
output/A-analysis.md, so A's working document never receives it. -/
def runC10 : Option (Except String Bool × CMState × FS) :=
  startCoordinationRound [agentA10, agentB10] (mkCoordinationManager "custom") fsC10

/-- A manager state whose pair counter for A-B is already at the budget. -/
def stC4w : CMState :=
  { mkCoordinationManagerDefault with roundLimits := [("A-B", 3)] }

/-- Run starting from the exhausted pair counter: every round skips the
pair and logs a timeout entry. -/
def runC4w : Option (Except String Bool × CMState × FS) :=
  startCoordinationRound agentsAB stC4w fsC2

/-- Readability of every participating agent's working document: each is
present and structurally intact. -/
def DocsOk (agents : List Agent) (fs : FS) : Prop :=
  ∀ a ∈ agents, ∃ d, lookupDoc fs a.workingFile = some d ∧ d.corrupt = false

/-- An error log in which every timeout entry carries an empty question
list. -/
def timeoutsEmpty (l : List LogEntry) : Prop :=
  ∀ k m qs, LogEntry.timeout k m qs ∈ l → qs = []

/-- Every recorded answer-production call was made for a Comment whose
round field equals the round in which the call happened. -/
def callsMatchRound (l : List CallRecord) : Prop :=
  ∀ r ∈ l, r.commentRound = r.calledInRound

/-! Basic lemmas about the association maps. -/

theorem lookupCount_setCount_self (m : List (String × Nat)) (k : String) (v : Nat) :
    lookupCount (setCount m k v) k = v := by
  induction m with
  | nil => simp [setCount, lookupCount]
  | cons p rest ih =>
      by_cases h : p.1 = k <;> simp [setCount, lookupCount, h, ih]

theorem lookupCount_setCount_ne (m : List (String × Nat)) (k k' : String) (v : Nat)
    (h : k' ≠ k) : lookupCount (setCount m k v) k' = lookupCount m k' := by
  induction m with
  | nil => simp [setCount, lookupCount, Ne.symm h]
  | cons p rest ih =>
      obtain ⟨p1, pv⟩ := p
      by_cases hp : p1 = k
      · subst hp
        simp [setCount, lookupCount, Ne.symm h]
      · simp only [setCount, hp, if_false, lookupCount]
        by_cases hq : p1 = k' <;> simp [hq, ih]

theorem lookupDoc_updateDoc_ne (fs : FS) (path q : String) (nd : Doc) (h : q ≠ path) :
    lookupDoc (updateDoc fs path nd) q = lookupDoc fs q := by
  induction fs with
  | nil => simp [updateDoc]
  | cons p rest ih =>
      obtain ⟨p1, pd⟩ := p
      by_cases hp : p1 = path
      · subst hp
        simp [updateDoc, lookupDoc, Ne.symm h]
      · simp only [updateDoc, hp, if_false, lookupDoc]
        by_cases hq : p1 = q <;> simp [hq, ih]

theorem lookupDoc_updateDoc_self (fs : FS) (path : String) (d nd : Doc)
    (h : lookupDoc fs path = some d) :
    lookupDoc (updateDoc fs path nd) path = some nd := by
  induction fs with
  | nil => simp [lookupDoc] at h
  | cons p rest ih =>
      by_cases hp : p.1 = path
      · simp [updateDoc, lookupDoc, hp]
      · simp only [lookupDoc, hp, if_false] at h
        simp [updateDoc, lookupDoc, hp, ih h]

/-! Lemmas about the spec-modelled codec operations. -/

theorem respondToComment_ok_ne (fs fs' : FS) (path : String) (id : Nat)
    (resp : String) (q : String) (h : respondToComment fs path id resp = Except.ok fs')
    (hq : q ≠ path) : lookupDoc fs' q = lookupDoc fs q := by
  unfold respondToComment at h
  cases hl : lookupDoc fs path with
  | none => simp [hl] at h
  | some d =>
      simp only [hl] at h
      by_cases hc : d.corrupt
      · simp [hc] at h
      · simp [hc] at h
        subst h
        exact lookupDoc_updateDoc_ne fs path q _ hq

theorem respondToComment_ok_corrupt (fs fs' : FS) (path : String) (id : Nat)
    (resp : String) (q : String) (d : Doc)
    (h : respondToComment fs path id resp = Except.ok fs')
    (hq : lookupDoc fs q = some d) :
    ∃ d', lookupDoc fs' q = some d' ∧ d'.corrupt = d.corrupt := by
  unfold respondToComment at h
  cases hl : lookupDoc fs path with
  | none => simp [hl] at h
  | some d0 =>
      simp only [hl] at h
      by_cases hc : d0.corrupt
      · simp [hc] at h
      · simp [hc] at h
        subst h
        by_cases hqp : q = path
        · subst hqp
          rw [hq] at hl
          cases hl
          refine ⟨_, lookupDoc_updateDoc_self fs q d _ hq, ?_⟩
          simp only [Bool.not_eq_true] at hc
          simp [hc]
        · exact ⟨d, by rw [lookupDoc_updateDoc_ne fs path q _ hqp, hq], rfl⟩

/-! Lemmas about processQuestions. -/

theorem processQuestions_preserves (a : Agent) (qs : List Comment) (ask : String) :
    ∀ st fs, (processQuestions a qs ask st fs).1.maxRounds = st.maxRounds ∧
      (processQuestions a qs ask st fs).1.currentRound = st.currentRound ∧
      (processQuestions a qs ask st fs).1.roundLimits = st.roundLimits ∧
      (processQuestions a qs ask st fs).1.attempts = st.attempts ∧
      (processQuestions a qs ask st fs).1.errorLogPath = st.errorLogPath := by
  induction qs with
  | nil => intro st fs; simp [processQuestions]
  | cons q rest ih =>
      intro st fs
      simp only [processQuestions]
      cases hr : a.respond q ask with
      | error msg =>
          simp only [hr]
          simpa [logError] using ih _ fs
      | ok resp =>
          simp only [hr]
          cases hw : respondToComment fs (findAgentFile ask) q.id resp with
          | error msg =>
              simp only [hw]
              simpa [logError] using ih _ fs
          | ok fs' =>
              simp only [hw]
              simpa using ih _ fs'

theorem processQuestions_log_extends (a : Agent) (qs : List Comment) (ask : String) :
    ∀ st fs, ∃ t, (processQuestions a qs ask st fs).1.errorLog = st.errorLog ++ t ∧
      ∀ e ∈ t, ∃ m, e = LogEntry.failure m := by
  induction qs with
  | nil => intro st fs; exact ⟨[], by simp [processQuestions], by simp⟩
  | cons q rest ih =>
      intro st fs
      have hrec : ∀ st' fs' (l1 : List LogEntry), st'.errorLog = st.errorLog ++ l1 →
          (∀ e ∈ l1, ∃ m, e = LogEntry.failure m) →
          ∃ t, (processQuestions a rest ask st' fs').1.errorLog = st.errorLog ++ t ∧
            ∀ e ∈ t, ∃ m, e = LogEntry.failure m := by
        intro st' fs' l1 hlog hl1
        obtain ⟨t, ht, hall⟩ := ih st' fs'
        refine ⟨l1 ++ t, ?_, ?_⟩
        · rw [ht, hlog, List.append_assoc]
        · intro e he
          cases List.mem_append.mp he with
          | inl h => exact hl1 e h
          | inr h => exact hall e h
      simp only [processQuestions]
      cases hr : a.respond q ask with
      | error msg =>
          simp only [hr]
          exact hrec _ fs [LogEntry.failure ("Error processing question from " ++ ask ++
            " to " ++ a.name ++ ": " ++ msg)] (by simp [logError]) (by simp)
      | ok resp =>
          simp only [hr]
          cases hw : respondToComment fs (findAgentFile ask) q.id resp with
          | error msg =>
              simp only [hw]
              exact hrec _ fs [LogEntry.failure ("Error processing question from " ++ ask ++
                " to " ++ a.name ++ ": " ++ msg)] (by simp [logError]) (by simp)
          | ok fs' =>
              simp only [hw]
              exact hrec _ fs' [] (by simp) (by simp)

theorem processQuestions_calls_extends (a : Agent) (qs : List Comment) (ask : String) :
    ∀ st fs, ∃ t, (processQuestions a qs ask st fs).1.answerCalls = st.answerCalls ++ t ∧
      ∀ r ∈ t, ∃ q ∈ qs, r = mkCallRecord a.name q.id q.round st.currentRound := by
  induction qs with
  | nil => intro st fs; exact ⟨[], by simp [processQuestions], by simp⟩
  | cons q rest ih =>
      intro st fs
      have hrec : ∀ st' fs', st'.answerCalls = st.answerCalls ++
          [mkCallRecord a.name q.id q.round st.currentRound] →
          st'.currentRound = st.currentRound →
          ∃ t, (processQuestions a rest ask st' fs').1.answerCalls = st.answerCalls ++ t ∧
            ∀ r ∈ t, ∃ p ∈ q :: rest,
              r = mkCallRecord a.name p.id p.round st.currentRound := by
        intro st' fs' hcalls hround
        obtain ⟨t, ht, hall⟩ := ih st' fs'
        refine ⟨mkCallRecord a.name q.id q.round st.currentRound :: t, ?_, ?_⟩
        · rw [ht, hcalls]; simp
        · intro r hrmem
          cases hrmem with
          | head => exact ⟨q, List.mem_cons_self _ _, rfl⟩
          | tail _ h =>
              obtain ⟨p, hp, hr⟩ := hall r h
              exact ⟨p, List.mem_cons_of_mem _ hp, by rw [hr, hround]⟩
      simp only [processQuestions]
      cases hr : a.respond q ask with
      | error msg =>
          simp only [hr]
          exact hrec _ fs (by simp [logError]) (by simp [logError])
      | ok resp =>
          simp only [hr]
          cases hw : respondToComment fs (findAgentFile ask) q.id resp with
          | error msg =>
              simp only [hw]
              exact hrec _ fs (by simp [logError]) (by simp [logError])
          | ok fs' =>
              simp only [hw]
              exact hrec _ fs' (by simp) (by simp)

theorem processQuestions_records (a : Agent) (qs : List Comment) (ask : String) :
    ∀ st fs, ∀ q ∈ qs, mkCallRecord a.name q.id q.round st.currentRound ∈
      (processQuestions a qs ask st fs).1.answerCalls := by
  induction qs with
  | nil => intro st fs q h; cases h
  | cons q0 rest ih =>
      intro st fs q hq
      have hrec : ∀ st' fs', st'.answerCalls = st.answerCalls ++
          [mkCallRecord a.name q0.id q0.round st.currentRound] →
          st'.currentRound = st.currentRound →
          mkCallRecord a.name q.id q.round st.currentRound ∈
          (processQuestions a rest ask st' fs').1.answerCalls := by
        intro st' fs' hcalls hround
        cases List.mem_cons.mp hq with
        | inl heq =>
            subst heq
            obtain ⟨t, ht, _⟩ := processQuestions_calls_extends a rest ask st' fs'
            rw [ht, hcalls]
            exact List.mem_append_left _ (List.mem_append_right _ (List.mem_singleton.mpr rfl))
        | inr hmem =>
            have := ih st' fs' q hmem
            rwa [hround] at this
      simp only [processQuestions]
      cases hr : a.respond q0 ask with
      | error msg =>
          simp only [hr]
          exact hrec _ fs (by simp [logError]) (by simp [logError])
      | ok resp =>
          simp only [hr]
          cases hw : respondToComment fs (findAgentFile ask) q0.id resp with
          | error msg =>
              simp only [hw]
              exact hrec _ fs (by simp [logError]) (by simp [logError])
          | ok fs' =>
              simp only [hw]
              exact hrec _ fs' (by simp) (by simp)

theorem processQuestions_fs_ne (a : Agent) (qs : List Comment) (ask : String) :
    ∀ st fs p, p ≠ findAgentFile ask →
      lookupDoc (processQuestions a qs ask st fs).2 p = lookupDoc fs p := by
  induction qs with
  | nil => intro st fs p _; simp [processQuestions]
  | cons q rest ih =>
      intro st fs p hp
      simp only [processQuestions]
      cases hr : a.respond q ask with
      | error msg =>
          simp only [hr]
          exact ih _ fs p hp
      | ok resp =>
          simp only [hr]
          cases hw : respondToComment fs (findAgentFile ask) q.id resp with
          | error msg =>
              simp only [hw]
              exact ih _ fs p hp
          | ok fs' =>
              simp only [hw]
              rw [ih _ fs' p hp]
              exact respondToComment_ok_ne fs fs' (findAgentFile ask) q.id resp p hw hp

theorem processQuestions_corrupt (a : Agent) (qs : List Comment) (ask : String) :
    ∀ st fs p d, lookupDoc fs p = some d →
      ∃ d', lookupDoc (processQuestions a qs ask st fs).2 p = some d' ∧
        d'.corrupt = d.corrupt := by
  induction qs with
  | nil => intro st fs p d hd; exact ⟨d, by simpa [processQuestions] using hd, rfl⟩
  | cons q rest ih =>
      intro st fs p d hd
      simp only [processQuestions]
      cases hr : a.respond q ask with
      | error msg =>
          simp only [hr]
          exact ih _ fs p d hd
      | ok resp =>
          simp only [hr]
          cases hw : respondToComment fs (findAgentFile ask) q.id resp with
          | error msg =>
              simp only [hw]
              exact ih _ fs p d hd
          | ok fs' =>
              simp only [hw]
              obtain ⟨d1, hd1, hc1⟩ :=
                respondToComment_ok_corrupt fs fs' (findAgentFile ask) q.id resp p d hw hd
              obtain ⟨d2, hd2, hc2⟩ := ih _ fs' p d1 hd1
              exact ⟨d2, hd2, by rw [hc2, hc1]⟩

/-! Lemmas about checkForQuestions and directionStep. -/

theorem checkForQuestions_ok_round (st : CMState) (fs : FS) (a : Agent)
    (t : String) (qs : List Comment)
    (h : checkForQuestions st fs a t = Except.ok qs) :
    ∀ q ∈ qs, q.targetAgent = t ∧ q.status = CommentStatus.pending ∧
      q.round = st.currentRound := by
  unfold checkForQuestions at h
  cases hr : readDocComments fs a.workingFile with
  | error e => simp [hr] at h
  | ok comments =>
      simp only [hr, Except.ok.injEq] at h
      subst h
      intro q hq
      have := List.mem_filter.mp hq
      simpa using this.2

theorem directionStep_preserves (answering asking : Agent) (key : String)
    (st : CMState) (fs : FS) (qs : List Comment) :
    (directionStep answering asking key st fs qs).1.maxRounds = st.maxRounds ∧
    (directionStep answering asking key st fs qs).1.currentRound = st.currentRound ∧
    (directionStep answering asking key st fs qs).1.attempts = st.attempts ∧
    (directionStep answering asking key st fs qs).1.errorLogPath = st.errorLogPath := by
  unfold directionStep
  split
  · obtain ⟨h1, h2, _, h4, h5⟩ := processQuestions_preserves answering qs asking.name st fs
    simp [incrementRoundCount, h1, h2, h4, h5]
  · simp

theorem directionStep_counts_ne (answering asking : Agent) (key : String)
    (st : CMState) (fs : FS) (qs : List Comment) (k : String) (hk : k ≠ key) :
    lookupCount (directionStep answering asking key st fs qs).1.roundLimits k =
      lookupCount st.roundLimits k := by
  unfold directionStep
  split
  · obtain ⟨_, _, h3, _, _⟩ := processQuestions_preserves answering qs asking.name st fs
    simp [incrementRoundCount, lookupCount_setCount_ne _ _ _ _ hk, h3]
  · rfl

theorem directionStep_counts_key (answering asking : Agent) (key : String)
    (st : CMState) (fs : FS) (qs : List Comment) :
    lookupCount st.roundLimits key ≤
      lookupCount (directionStep answering asking key st fs qs).1.roundLimits key ∧
    lookupCount (directionStep answering asking key st fs qs).1.roundLimits key ≤
      lookupCount st.roundLimits key + 1 := by
  unfold directionStep
  split
  · obtain ⟨_, _, h3, _, _⟩ := processQuestions_preserves answering qs asking.name st fs
    simp [incrementRoundCount, lookupCount_setCount_self, getRoundCount, h3]
  · simp

theorem directionStep_log_extends (answering asking : Agent) (key : String)
    (st : CMState) (fs : FS) (qs : List Comment) :
    ∃ t, (directionStep answering asking key st fs qs).1.errorLog = st.errorLog ++ t ∧
      ∀ e ∈ t, ∃ m, e = LogEntry.failure m := by
  unfold directionStep
  split
  · obtain ⟨t, ht, hall⟩ := processQuestions_log_extends answering qs asking.name st fs
    exact ⟨t, by simp [incrementRoundCount, ht], hall⟩
  · exact ⟨[], by simp, by simp⟩

theorem directionStep_calls_extends (answering asking : Agent) (key : String)
    (st : CMState) (fs : FS) (qs : List Comment) :
    ∃ t, (directionStep answering asking key st fs qs).1.answerCalls =
        st.answerCalls ++ t ∧
      ∀ r ∈ t, ∃ q ∈ qs, r = mkCallRecord answering.name q.id q.round st.currentRound := by
  unfold directionStep
  split
  · obtain ⟨t, ht, hall⟩ := processQuestions_calls_extends answering qs asking.name st fs
    exact ⟨t, by simp [incrementRoundCount, ht], hall⟩
  · exact ⟨[], by simp, by simp⟩

theorem directionStep_records (answering asking : Agent) (key : String)
    (st : CMState) (fs : FS) (qs : List Comment) (c : Comment) (hc : c ∈ qs) :
    mkCallRecord answering.name c.id c.round st.currentRound ∈
      (directionStep answering asking key st fs qs).1.answerCalls := by
  unfold directionStep
  rw [if_pos (List.length_pos.mpr (List.ne_nil_of_mem hc))]
  simpa [incrementRoundCount] using
    processQuestions_records answering qs asking.name st fs c hc

theorem directionStep_corrupt (answering asking : Agent) (key : String)
    (st : CMState) (fs : FS) (qs : List Comment) (p : String) (d : Doc)
    (hd : lookupDoc fs p = some d) :
    ∃ d', lookupDoc (directionStep answering asking key st fs qs).2 p = some d' ∧
      d'.corrupt = d.corrupt := by
  unfold directionStep
  split
  · simpa using processQuestions_corrupt answering qs asking.name st fs p d hd
  · exact ⟨d, hd, rfl⟩

theorem directionStep_fs_ne (answering asking : Agent) (key : String)
    (st : CMState) (fs : FS) (qs : List Comment) (p : String)
    (hp : p ≠ findAgentFile asking.name) :
    lookupDoc (directionStep answering asking key st fs qs).2 p = lookupDoc fs p := by
  unfold directionStep
  split
  · simpa using processQuestions_fs_ne answering qs asking.name st fs p hp
  · rfl

/-! Lemmas about facilitateCoordination. -/

theorem facilitateCoordination_preserves (a1 a2 : Agent) (key : String)
    (st : CMState) (fs : FS) :
    (facilitateCoordination a1 a2 key st fs).1.maxRounds = st.maxRounds ∧
    (facilitateCoordination a1 a2 key st fs).1.currentRound = st.currentRound ∧
    (facilitateCoordination a1 a2 key st fs).1.attempts = st.attempts ∧
    (facilitateCoordination a1 a2 key st fs).1.errorLogPath = st.errorLogPath := by
  simp only [facilitateCoordination]
  cases hc1 : checkForQuestions st fs a1 a2.name with
  | error msg => simp [logError]
  | ok q12 =>
      simp only [hc1]
      obtain ⟨d11, d12, d13, d14⟩ := directionStep_preserves a2 a1 key st fs q12
      cases hc2 : checkForQuestions (directionStep a2 a1 key st fs q12).1
          (directionStep a2 a1 key st fs q12).2 a2 a1.name with
      | error msg => simp [logError, d11, d12, d13, d14]
      | ok q21 =>
          obtain ⟨e11, e12, e13, e14⟩ := directionStep_preserves a1 a2 key
            (directionStep a2 a1 key st fs q12).1 (directionStep a2 a1 key st fs q12).2 q21
          simp only []
          rw [e11, e12, e13, e14, d11, d12, d13, d14]
          exact ⟨rfl, rfl, rfl, rfl⟩

theorem facilitateCoordination_counts_ne (a1 a2 : Agent) (key : String)
    (st : CMState) (fs : FS) (k : String) (hk : k ≠ key) :
    lookupCount (facilitateCoordination a1 a2 key st fs).1.roundLimits k =
      lookupCount st.roundLimits k := by
  simp only [facilitateCoordination]
  cases hc1 : checkForQuestions st fs a1 a2.name with
  | error msg => simp [logError]
  | ok q12 =>
      simp only [hc1]
      have d1 := directionStep_counts_ne a2 a1 key st fs q12 k hk
      cases hc2 : checkForQuestions (directionStep a2 a1 key st fs q12).1
          (directionStep a2 a1 key st fs q12).2 a2 a1.name with
      | error msg => simp [logError, d1]
      | ok q21 =>
          have d2 := directionStep_counts_ne a1 a2 key
            (directionStep a2 a1 key st fs q12).1 (directionStep a2 a1 key st fs q12).2 q21 k hk
          simp only []
          rw [d2, d1]

theorem facilitateCoordination_counts_key (a1 a2 : Agent) (key : String)
    (st : CMState) (fs : FS) :
    lookupCount st.roundLimits key ≤
      lookupCount (facilitateCoordination a1 a2 key st fs).1.roundLimits key ∧
    lookupCount (facilitateCoordination a1 a2 key st fs).1.roundLimits key ≤
      lookupCount st.roundLimits key + 2 := by
  simp only [facilitateCoordination]
  cases hc1 : checkForQuestions st fs a1 a2.name with
  | error msg => simp [logError]
  | ok q12 =>
      simp only [hc1]
      obtain ⟨d1l, d1r⟩ := directionStep_counts_key a2 a1 key st fs q12
      cases hc2 : checkForQuestions (directionStep a2 a1 key st fs q12).1
          (directionStep a2 a1 key st fs q12).2 a2 a1.name with
      | error msg =>
          simp only [logError]
          exact ⟨d1l.trans (Nat.le_refl _), by omega⟩
      | ok q21 =>
          obtain ⟨d2l, d2r⟩ := directionStep_counts_key a1 a2 key
            (directionStep a2 a1 key st fs q12).1 (directionStep a2 a1 key st fs q12).2 q21
          simp only []
          exact ⟨d1l.trans d2l, by omega⟩

theorem facilitateCoordination_log_extends (a1 a2 : Agent) (key : String)
    (st : CMState) (fs : FS) :
    ∃ t, (facilitateCoordination a1 a2 key st fs).1.errorLog = st.errorLog ++ t ∧
      ∀ e ∈ t, ∃ m, e = LogEntry.failure m := by
  simp only [facilitateCoordination]
  cases hc1 : checkForQuestions st fs a1 a2.name with
  | error msg =>
      exact ⟨[LogEntry.failure ("Coordination error between " ++ a1.name ++ " and " ++
        a2.name ++ ": " ++ msg)], by simp [logError], by simp⟩
  | ok q12 =>
      simp only [hc1]
      obtain ⟨t1, ht1, ha1⟩ := directionStep_log_extends a2 a1 key st fs q12
      cases hc2 : checkForQuestions (directionStep a2 a1 key st fs q12).1
          (directionStep a2 a1 key st fs q12).2 a2 a1.name with
      | error msg =>
          refine ⟨t1 ++ [LogEntry.failure ("Coordination error between " ++ a1.name ++
            " and " ++ a2.name ++ ": " ++ msg)], ?_, ?_⟩
          · simp [logError, ht1]
          · intro e he
            cases List.mem_append.mp he with
            | inl h => exact ha1 e h
            | inr h => exact ⟨_, by simpa using h⟩
      | ok q21 =>
          obtain ⟨t2, ht2, ha2⟩ := directionStep_log_extends a1 a2 key
            (directionStep a2 a1 key st fs q12).1 (directionStep a2 a1 key st fs q12).2 q21
          refine ⟨t1 ++ t2, ?_, ?_⟩
          · simp only []
            rw [ht2, ht1, List.append_assoc]
          · intro e he
            cases List.mem_append.mp he with
            | inl h => exact ha1 e h
            | inr h => exact ha2 e h

theorem facilitateCoordination_calls_extends (a1 a2 : Agent) (key : String)
    (st : CMState) (fs : FS) :
    ∃ t, (facilitateCoordination a1 a2 key st fs).1.answerCalls =
      st.answerCalls ++ t := by
  simp only [facilitateCoordination]
  cases hc1 : checkForQuestions st fs a1 a2.name with
  | error msg => exact ⟨[], by simp [logError]⟩
  | ok q12 =>
      simp only [hc1]
      obtain ⟨t1, ht1, _⟩ := directionStep_calls_extends a2 a1 key st fs q12
      cases hc2 : checkForQuestions (directionStep a2 a1 key st fs q12).1
          (directionStep a2 a1 key st fs q12).2 a2 a1.name with
      | error msg => exact ⟨t1, by simp [logError, ht1]⟩
      | ok q21 =>
          obtain ⟨t2, ht2, _⟩ := directionStep_calls_extends a1 a2 key
            (directionStep a2 a1 key st fs q12).1 (directionStep a2 a1 key st fs q12).2 q21
          refine ⟨t1 ++ t2, ?_⟩
          simp only []
          rw [ht2, ht1, List.append_assoc]

theorem facilitateCoordination_callsMatchRound (a1 a2 : Agent) (key : String)
    (st : CMState) (fs : FS) (hinv : callsMatchRound st.answerCalls) :
    callsMatchRound (facilitateCoordination a1 a2 key st fs).1.answerCalls := by
  simp only [facilitateCoordination]
  cases hc1 : checkForQuestions st fs a1 a2.name with
  | error msg => simpa [logError] using hinv
  | ok q12 =>
      simp only [hc1]
      have hstep1 : callsMatchRound (directionStep a2 a1 key st fs q12).1.answerCalls := by
        obtain ⟨t1, ht1, ha1⟩ := directionStep_calls_extends a2 a1 key st fs q12
        intro r hr
        rw [ht1] at hr
        cases List.mem_append.mp hr with
        | inl h => exact hinv r h
        | inr h =>
            obtain ⟨q, hq, hrq⟩ := ha1 r h
            obtain ⟨_, _, hround⟩ := checkForQuestions_ok_round st fs a1 a2.name q12 hc1 q hq
            rw [hrq]
            simpa [mkCallRecord] using hround
      cases hc2 : checkForQuestions (directionStep a2 a1 key st fs q12).1
          (directionStep a2 a1 key st fs q12).2 a2 a1.name with
      | error msg => simpa [logError] using hstep1
      | ok q21 =>
          obtain ⟨t2, ht2, ha2⟩ := directionStep_calls_extends a1 a2 key
            (directionStep a2 a1 key st fs q12).1 (directionStep a2 a1 key st fs q12).2 q21
          intro r hr
          simp only [] at hr
          rw [ht2] at hr
          cases List.mem_append.mp hr with
          | inl h => exact hstep1 r h
          | inr h =>
              obtain ⟨q, hq, hrq⟩ := ha2 r h
              obtain ⟨_, _, hround⟩ := checkForQuestions_ok_round _ _ a2 a1.name q21 hc2 q hq
              rw [hrq]
              simpa [mkCallRecord] using hround

theorem facilitateCoordination_corrupt (a1 a2 : Agent) (key : String)
    (st : CMState) (fs : FS) (p : String) (d : Doc)
    (hd : lookupDoc fs p = some d) :
    ∃ d', lookupDoc (facilitateCoordination a1 a2 key st fs).2 p = some d' ∧
      d'.corrupt = d.corrupt := by
  simp only [facilitateCoordination]
  cases hc1 : checkForQuestions st fs a1 a2.name with
  | error msg => exact ⟨d, hd, rfl⟩
  | ok q12 =>
      simp only [hc1]
      obtain ⟨d1, hd1, hcor1⟩ := directionStep_corrupt a2 a1 key st fs q12 p d hd
      cases hc2 : checkForQuestions (directionStep a2 a1 key st fs q12).1
          (directionStep a2 a1 key st fs q12).2 a2 a1.name with
      | error msg => exact ⟨d1, hd1, hcor1⟩
      | ok q21 =>
          obtain ⟨d2, hd2, hcor2⟩ := directionStep_corrupt a1 a2 key
            (directionStep a2 a1 key st fs q12).1 (directionStep a2 a1 key st fs q12).2
            q21 p d1 hd1
          exact ⟨d2, hd2, by rw [hcor2, hcor1]⟩

theorem facilitateCoordination_record (a1 a2 : Agent) (key : String)
    (st : CMState) (fs : FS) (comments : List Comment) (c : Comment)
    (hread : readDocComments fs a1.workingFile = Except.ok comments)
    (hc : c ∈ comments) (htar : c.targetAgent = a2.name)
    (hpend : c.status = CommentStatus.pending) (hround : c.round = st.currentRound) :
    mkCallRecord a2.name c.id c.round st.currentRound ∈
      (facilitateCoordination a1 a2 key st fs).1.answerCalls := by
  have hc1 : checkForQuestions st fs a1 a2.name = Except.ok (comments.filter (fun c =>
      decide (c.targetAgent = a2.name ∧ c.status = CommentStatus.pending ∧
        c.round = st.currentRound))) := by
    unfold checkForQuestions
    rw [hread]
  have hcf : c ∈ comments.filter (fun c =>
      decide (c.targetAgent = a2.name ∧ c.status = CommentStatus.pending ∧
        c.round = st.currentRound)) := by
    refine List.mem_filter.mpr ⟨hc, ?_⟩
    simp [htar, hpend, hround]
  simp only [facilitateCoordination]
  rw [hc1]
  simp only []
  have hrec := directionStep_records a2 a1 key st fs _ c hcf
  cases hc2 : checkForQuestions (directionStep a2 a1 key st fs _).1
      (directionStep a2 a1 key st fs _).2 a2 a1.name with
  | error msg => simpa [logError] using hrec
  | ok q21 =>
      obtain ⟨t2, ht2, _⟩ := directionStep_calls_extends a1 a2 key
        (directionStep a2 a1 key st fs _).1 (directionStep a2 a1 key st fs _).2 q21
      rw [ht2]
      exact List.mem_append_left _ hrec

/-! Lemmas about processPairs. -/

theorem processPairs_preserves (pairs : List (Agent × Agent)) :
    ∀ st fs, (processPairs pairs st fs).1.maxRounds = st.maxRounds ∧
      (processPairs pairs st fs).1.currentRound = st.currentRound ∧
      (processPairs pairs st fs).1.errorLogPath = st.errorLogPath := by
  induction pairs with
  | nil => intro st fs; simp [processPairs]
  | cons pr rest ih =>
      intro st fs
      obtain ⟨a1, a2⟩ := pr
      simp only [processPairs]
      by_cases hg : st.maxRounds ≤ getRoundCount st (pairKey a1 a2)
      · rw [if_pos hg]
        have h := ih (logCoordinationTimeout st (pairKey a1 a2) []) fs
        have e1 : (logCoordinationTimeout st (pairKey a1 a2) []).maxRounds = st.maxRounds := rfl
        have e2 : (logCoordinationTimeout st (pairKey a1 a2) []).currentRound =
          st.currentRound := rfl
        have e3 : (logCoordinationTimeout st (pairKey a1 a2) []).errorLogPath =
          st.errorLogPath := rfl
        rw [e1, e2, e3] at h
        exact h
      · rw [if_neg hg]
        obtain ⟨f1, f2, _, f4⟩ := facilitateCoordination_preserves a1 a2 (pairKey a1 a2)
          { st with attempts := st.attempts + 1 } fs
        obtain ⟨i1, i2, i3⟩ := ih (facilitateCoordination a1 a2 (pairKey a1 a2)
          { st with attempts := st.attempts + 1 } fs).1
          (facilitateCoordination a1 a2 (pairKey a1 a2)
            { st with attempts := st.attempts + 1 } fs).2
        rw [i1, i2, i3, f1, f2, f4]
        exact ⟨rfl, rfl, rfl⟩

theorem processPairs_attempts (pairs : List (Agent × Agent)) :
    ∀ st fs, st.attempts ≤ (processPairs pairs st fs).1.attempts ∧
      (processPairs pairs st fs).1.attempts ≤ st.attempts + pairs.length := by
  induction pairs with
  | nil => intro st fs; simp [processPairs]
  | cons pr rest ih =>
      intro st fs
      obtain ⟨a1, a2⟩ := pr
      simp only [processPairs]
      by_cases hg : st.maxRounds ≤ getRoundCount st (pairKey a1 a2)
      · rw [if_pos hg]
        have h := ih (logCoordinationTimeout st (pairKey a1 a2) []) fs
        have e1 : (logCoordinationTimeout st (pairKey a1 a2) []).attempts = st.attempts := rfl
        rw [e1] at h
        simp only [List.length_cons]
        omega
      · rw [if_neg hg]
        obtain ⟨_, _, f3, _⟩ := facilitateCoordination_preserves a1 a2 (pairKey a1 a2)
          { st with attempts := st.attempts + 1 } fs
        have hi := ih (facilitateCoordination a1 a2 (pairKey a1 a2)
          { st with attempts := st.attempts + 1 } fs).1
          (facilitateCoordination a1 a2 (pairKey a1 a2)
            { st with attempts := st.attempts + 1 } fs).2
        rw [f3] at hi
        have e2 : ({ st with attempts := st.attempts + 1 } : CMState).attempts =
          st.attempts + 1 := rfl
        rw [e2] at hi
        simp only [List.length_cons]
        omega

theorem processPairs_counts_mono (pairs : List (Agent × Agent)) :
    ∀ st fs k, lookupCount st.roundLimits k ≤
      lookupCount (processPairs pairs st fs).1.roundLimits k := by
  induction pairs with
  | nil => intro st fs k; simp [processPairs]
  | cons pr rest ih =>
      intro st fs k
      obtain ⟨a1, a2⟩ := pr
      simp only [processPairs]
      by_cases hg : st.maxRounds ≤ getRoundCount st (pairKey a1 a2)
      · rw [if_pos hg]
        simpa [logCoordinationTimeout] using
          ih (logCoordinationTimeout st (pairKey a1 a2) []) fs k
      · rw [if_neg hg]
        have hi := ih (facilitateCoordination a1 a2 (pairKey a1 a2)
          { st with attempts := st.attempts + 1 } fs).1
          (facilitateCoordination a1 a2 (pairKey a1 a2)
            { st with attempts := st.attempts + 1 } fs).2 k
        by_cases hk : k = pairKey a1 a2
        · subst hk
          obtain ⟨hl, _⟩ := facilitateCoordination_counts_key a1 a2 (pairKey a1 a2)
            { st with attempts := st.attempts + 1 } fs
          simp only [] at hl hi ⊢
          omega
        · have hne := facilitateCoordination_counts_ne a1 a2 (pairKey a1 a2)
            { st with attempts := st.attempts + 1 } fs k hk
          simp only [] at hne hi ⊢
          rw [hne] at hi
          exact hi

theorem processPairs_counts_bound (pairs : List (Agent × Agent)) :
    ∀ st fs, (∀ k, lookupCount st.roundLimits k ≤ st.maxRounds + 1) →
      ∀ k, lookupCount (processPairs pairs st fs).1.roundLimits k ≤ st.maxRounds + 1 := by
  induction pairs with
  | nil => intro st fs h k; simpa [processPairs] using h k
  | cons pr rest ih =>
      intro st fs h k
      obtain ⟨a1, a2⟩ := pr
      simp only [processPairs]
      by_cases hg : st.maxRounds ≤ getRoundCount st (pairKey a1 a2)
      · rw [if_pos hg]
        simpa [logCoordinationTimeout] using
          ih (logCoordinationTimeout st (pairKey a1 a2) []) fs (by simpa [logCoordinationTimeout] using h) k
      · rw [if_neg hg]
        have hF1 := facilitateCoordination_preserves a1 a2 (pairKey a1 a2)
          { st with attempts := st.attempts + 1 } fs
        have hbound : ∀ k', lookupCount (facilitateCoordination a1 a2 (pairKey a1 a2)
            { st with attempts := st.attempts + 1 } fs).1.roundLimits k' ≤
            (facilitateCoordination a1 a2 (pairKey a1 a2)
              { st with attempts := st.attempts + 1 } fs).1.maxRounds + 1 := by
          intro k'
          rw [hF1.1]
          by_cases hk : k' = pairKey a1 a2
          · subst hk
            obtain ⟨_, hr⟩ := facilitateCoordination_counts_key a1 a2 (pairKey a1 a2)
              { st with attempts := st.attempts + 1 } fs
            simp only [getRoundCount] at hg
            simp only [] at hr ⊢
            omega
          · have hne := facilitateCoordination_counts_ne a1 a2 (pairKey a1 a2)
              { st with attempts := st.attempts + 1 } fs k' hk
            simp only [] at hne ⊢
            rw [hne]
            exact (h k').trans (by simp)
        have := ih (facilitateCoordination a1 a2 (pairKey a1 a2)
          { st with attempts := st.attempts + 1 } fs).1
          (facilitateCoordination a1 a2 (pairKey a1 a2)
            { st with attempts := st.attempts + 1 } fs).2 hbound k
        simp only [] at this ⊢
        rw [hF1.1] at this
        simpa using this

theorem processPairs_frozen (pairs : List (Agent × Agent)) :
    ∀ st fs k, st.maxRounds ≤ lookupCount st.roundLimits k →
      lookupCount (processPairs pairs st fs).1.roundLimits k =
        lookupCount st.roundLimits k := by
  induction pairs with
  | nil => intro st fs k _; simp [processPairs]
  | cons pr rest ih =>
      intro st fs k h
      obtain ⟨a1, a2⟩ := pr
      simp only [processPairs]
      by_cases hg : st.maxRounds ≤ getRoundCount st (pairKey a1 a2)
      · rw [if_pos hg]
        simpa [logCoordinationTimeout] using
          ih (logCoordinationTimeout st (pairKey a1 a2) []) fs k
            (by simpa [logCoordinationTimeout] using h)
      · rw [if_neg hg]
        by_cases hk : k = pairKey a1 a2
        · subst hk
          simp only [getRoundCount] at hg
          omega
        · have hne := facilitateCoordination_counts_ne a1 a2 (pairKey a1 a2)
            { st with attempts := st.attempts + 1 } fs k hk
          have hF1 := facilitateCoordination_preserves a1 a2 (pairKey a1 a2)
            { st with attempts := st.attempts + 1 } fs
          have := ih (facilitateCoordination a1 a2 (pairKey a1 a2)
            { st with attempts := st.attempts + 1 } fs).1
            (facilitateCoordination a1 a2 (pairKey a1 a2)
              { st with attempts := st.attempts + 1 } fs).2 k
            (by rw [hF1.1, hne]; simpa using h)
          simp only [] at this hne ⊢
          rw [this, hne]

theorem processPairs_log_extends (pairs : List (Agent × Agent)) :
    ∀ st fs, ∃ t, (processPairs pairs st fs).1.errorLog = st.errorLog ++ t ∧
      ∀ e ∈ t, (∃ m, e = LogEntry.failure m) ∨
        ∃ kk, e = LogEntry.timeout kk st.maxRounds [] := by
  induction pairs with
  | nil => intro st fs; exact ⟨[], by simp [processPairs], by simp⟩
  | cons pr rest ih =>
      intro st fs
      obtain ⟨a1, a2⟩ := pr
      simp only [processPairs]
      by_cases hg : st.maxRounds ≤ getRoundCount st (pairKey a1 a2)
      · rw [if_pos hg]
        obtain ⟨t, ht, hall⟩ := ih (logCoordinationTimeout st (pairKey a1 a2) []) fs
        refine ⟨LogEntry.timeout (pairKey a1 a2) st.maxRounds [] :: t, ?_, ?_⟩
        · rw [ht]
          simp [logCoordinationTimeout]
        · intro e he
          cases he with
          | head => exact Or.inr ⟨_, rfl⟩
          | tail _ h => exact hall e h
      · rw [if_neg hg]
        obtain ⟨tf, htf, haf⟩ := facilitateCoordination_log_extends a1 a2 (pairKey a1 a2)
          { st with attempts := st.attempts + 1 } fs
        obtain ⟨t, ht, hall⟩ := ih (facilitateCoordination a1 a2 (pairKey a1 a2)
          { st with attempts := st.attempts + 1 } fs).1
          (facilitateCoordination a1 a2 (pairKey a1 a2)
            { st with attempts := st.attempts + 1 } fs).2
        have hmr : (facilitateCoordination a1 a2 (pairKey a1 a2)
            { st with attempts := st.attempts + 1 } fs).1.maxRounds = st.maxRounds := by
          rw [(facilitateCoordination_preserves a1 a2 (pairKey a1 a2)
            { st with attempts := st.attempts + 1 } fs).1]
        refine ⟨tf ++ t, ?_, ?_⟩
        · rw [ht, htf]
          have : ({ st with attempts := st.attempts + 1 } : CMState).errorLog =
            st.errorLog := rfl
          rw [this, List.append_assoc]
        · intro e he
          cases List.mem_append.mp he with
          | inl h => exact Or.inl (haf e h)
          | inr h =>
              cases hall e h with
              | inl hm => exact Or.inl hm
              | inr hm =>
                  obtain ⟨kk, hkk⟩ := hm
                  rw [hmr] at hkk
                  exact Or.inr ⟨kk, hkk⟩

theorem processPairs_timeout_mem (pairs : List (Agent × Agent)) :
    ∀ st fs a1 a2, (a1, a2) ∈ pairs →
      st.maxRounds ≤ lookupCount st.roundLimits (pairKey a1 a2) →
      LogEntry.timeout (pairKey a1 a2) st.maxRounds [] ∈
        (processPairs pairs st fs).1.errorLog := by
  induction pairs with
  | nil => intro st fs a1 a2 hmem _; cases hmem
  | cons pr rest ih =>
      intro st fs a1 a2 hmem h
      obtain ⟨b1, b2⟩ := pr
      simp only [processPairs]
      cases List.mem_cons.mp hmem with
      | inl heq =>
          injection heq with h1 h2
          subst h1
          subst h2
          rw [if_pos (show st.maxRounds ≤ getRoundCount st (pairKey a1 a2) from h)]
          obtain ⟨t, ht, _⟩ := processPairs_log_extends rest
            (logCoordinationTimeout st (pairKey a1 a2) []) fs
          rw [ht]
          refine List.mem_append_left _ ?_
          simp [logCoordinationTimeout]
      | inr hmem' =>
          by_cases hg : st.maxRounds ≤ getRoundCount st (pairKey b1 b2)
          · rw [if_pos hg]
            exact ih (logCoordinationTimeout st (pairKey b1 b2) []) fs a1 a2 hmem' h
          · rw [if_neg hg]
            have hmono := processPairs_counts_mono [(b1, b2)]
              { st with attempts := st.attempts + 1 } fs (pairKey a1 a2)
            have hmono' : lookupCount st.roundLimits (pairKey a1 a2) ≤
                lookupCount (facilitateCoordination b1 b2 (pairKey b1 b2)
                  { st with attempts := st.attempts + 1 } fs).1.roundLimits (pairKey a1 a2) := by
              have := (facilitateCoordination_counts_key b1 b2 (pairKey b1 b2)
                { st with attempts := st.attempts + 1 } fs).1
              by_cases hk : pairKey a1 a2 = pairKey b1 b2
              · rw [hk]
                exact this
              · rw [facilitateCoordination_counts_ne b1 b2 (pairKey b1 b2)
                  { st with attempts := st.attempts + 1 } fs _ hk]
            have hmr : (facilitateCoordination b1 b2 (pairKey b1 b2)
                { st with attempts := st.attempts + 1 } fs).1.maxRounds = st.maxRounds := by
              rw [(facilitateCoordination_preserves b1 b2 (pairKey b1 b2)
                { st with attempts := st.attempts + 1 } fs).1]
            have := ih (facilitateCoordination b1 b2 (pairKey b1 b2)
              { st with attempts := st.attempts + 1 } fs).1
              (facilitateCoordination b1 b2 (pairKey b1 b2)
                { st with attempts := st.attempts + 1 } fs).2 a1 a2 hmem'
              (by rw [hmr]; exact h.trans hmono')
            rwa [hmr] at this

theorem processPairs_callsMatchRound (pairs : List (Agent × Agent)) :
    ∀ st fs, callsMatchRound st.answerCalls →
      callsMatchRound (processPairs pairs st fs).1.answerCalls := by
  induction pairs with
  | nil => intro st fs h; simpa [processPairs] using h
  | cons pr rest ih =>
      intro st fs h
      obtain ⟨a1, a2⟩ := pr
      simp only [processPairs]
      by_cases hg : st.maxRounds ≤ getRoundCount st (pairKey a1 a2)
      · rw [if_pos hg]
        exact ih (logCoordinationTimeout st (pairKey a1 a2) []) fs h
      · rw [if_neg hg]
        exact ih _ _ (facilitateCoordination_callsMatchRound a1 a2 (pairKey a1 a2)
          { st with attempts := st.attempts + 1 } fs h)

theorem processPairs_calls_extends (pairs : List (Agent × Agent)) :
    ∀ st fs, ∃ t, (processPairs pairs st fs).1.answerCalls = st.answerCalls ++ t := by
  induction pairs with
  | nil => intro st fs; exact ⟨[], by simp [processPairs]⟩
  | cons pr rest ih =>
      intro st fs
      obtain ⟨a1, a2⟩ := pr
      simp only [processPairs]
      by_cases hg : st.maxRounds ≤ getRoundCount st (pairKey a1 a2)
      · rw [if_pos hg]
        obtain ⟨t, ht⟩ := ih (logCoordinationTimeout st (pairKey a1 a2) []) fs
        exact ⟨t, by rw [ht]; rfl⟩
      · rw [if_neg hg]
        obtain ⟨tf, htf⟩ := facilitateCoordination_calls_extends a1 a2 (pairKey a1 a2)
          { st with attempts := st.attempts + 1 } fs
        obtain ⟨t, ht⟩ := ih (facilitateCoordination a1 a2 (pairKey a1 a2)
          { st with attempts := st.attempts + 1 } fs).1
          (facilitateCoordination a1 a2 (pairKey a1 a2)
            { st with attempts := st.attempts + 1 } fs).2
        refine ⟨tf ++ t, ?_⟩
        rw [ht, htf]
        have : ({ st with attempts := st.attempts + 1 } : CMState).answerCalls =
          st.answerCalls := rfl
        rw [this, List.append_assoc]

theorem processPairs_corrupt (pairs : List (Agent × Agent)) :
    ∀ st fs p d, lookupDoc fs p = some d →
      ∃ d', lookupDoc (processPairs pairs st fs).2 p = some d' ∧
        d'.corrupt = d.corrupt := by
  induction pairs with
  | nil => intro st fs p d hd; exact ⟨d, by simpa [processPairs] using hd, rfl⟩
  | cons pr rest ih =>
      intro st fs p d hd
      obtain ⟨a1, a2⟩ := pr
      simp only [processPairs]
      by_cases hg : st.maxRounds ≤ getRoundCount st (pairKey a1 a2)
      · rw [if_pos hg]
        exact ih (logCoordinationTimeout st (pairKey a1 a2) []) fs p d hd
      · rw [if_neg hg]
        obtain ⟨d1, hd1, hc1⟩ := facilitateCoordination_corrupt a1 a2 (pairKey a1 a2)
          { st with attempts := st.attempts + 1 } fs p d hd
        obtain ⟨d2, hd2, hc2⟩ := ih (facilitateCoordination a1 a2 (pairKey a1 a2)
          { st with attempts := st.attempts + 1 } fs).1
          (facilitateCoordination a1 a2 (pairKey a1 a2)
            { st with attempts := st.attempts + 1 } fs).2 p d1 hd1
        exact ⟨d2, hd2, by rw [hc2, hc1]⟩

/-! The main accumulated facts about the round loop. -/

theorem coordLoop_main (agents : List Agent) :
    ∀ fuel st fs v stF fsF, coordLoop agents fuel st fs = some (v, stF, fsF) →
      stF.maxRounds = st.maxRounds ∧
      st.currentRound ≤ stF.currentRound ∧
      (st.currentRound < st.maxRounds → stF.currentRound ≤ st.maxRounds) ∧
      (st.maxRounds ≤ st.currentRound → stF.currentRound = st.currentRound) ∧
      stF.errorLogPath = st.errorLogPath ∧
      (∀ k, lookupCount st.roundLimits k ≤ lookupCount stF.roundLimits k) ∧
      stF.attempts ≤ st.attempts +
        (stF.currentRound + 1 - st.currentRound) * (getAgentPairs agents).length ∧
      ((∀ k, lookupCount st.roundLimits k ≤ st.maxRounds + 1) →
        ∀ k, lookupCount stF.roundLimits k ≤ st.maxRounds + 1) ∧
      (∀ k, st.maxRounds ≤ lookupCount st.roundLimits k →
        lookupCount stF.roundLimits k = lookupCount st.roundLimits k) ∧
      (callsMatchRound st.answerCalls → callsMatchRound stF.answerCalls) ∧
      (∀ b, v = Except.ok b → b = true) ∧
      (∃ t, stF.errorLog = st.errorLog ++ t ∧ ∀ e ∈ t, (∃ m, e = LogEntry.failure m) ∨
        ∃ kk, e = LogEntry.timeout kk st.maxRounds []) := by
  intro fuel
  induction fuel with
  | zero => intro st fs v stF fsF h; simp [coordLoop] at h
  | succ fuel ih =>
      intro st fs v stF fsF h
      simp only [coordLoop] at h
      have hPmr := processPairs_preserves (getAgentPairs agents) st fs
      have hPat := processPairs_attempts (getAgentPairs agents) st fs
      have hPmono := processPairs_counts_mono (getAgentPairs agents) st fs
      have hPbound := processPairs_counts_bound (getAgentPairs agents) st fs
      have hPfrozen := processPairs_frozen (getAgentPairs agents) st fs
      have hPcalls := processPairs_callsMatchRound (getAgentPairs agents) st fs
      have hPlog := processPairs_log_extends (getAgentPairs agents) st fs
      have hcr : (processPairs (getAgentPairs agents) st fs).1.currentRound =
        st.currentRound := hPmr.2.1
      have hmr : (processPairs (getAgentPairs agents) st fs).1.maxRounds =
        st.maxRounds := hPmr.1
      have hexit : ∀ v0, (v0, (processPairs (getAgentPairs agents) st fs).1,
          (processPairs (getAgentPairs agents) st fs).2) = (v, stF, fsF) →
          (∀ b0, v0 = Except.ok b0 → b0 = true) →
          stF.maxRounds = st.maxRounds ∧
          st.currentRound ≤ stF.currentRound ∧
          (st.currentRound < st.maxRounds → stF.currentRound ≤ st.maxRounds) ∧
          (st.maxRounds ≤ st.currentRound → stF.currentRound = st.currentRound) ∧
          stF.errorLogPath = st.errorLogPath ∧
          (∀ k, lookupCount st.roundLimits k ≤ lookupCount stF.roundLimits k) ∧
          stF.attempts ≤ st.attempts +
            (stF.currentRound + 1 - st.currentRound) * (getAgentPairs agents).length ∧
          ((∀ k, lookupCount st.roundLimits k ≤ st.maxRounds + 1) →
            ∀ k, lookupCount stF.roundLimits k ≤ st.maxRounds + 1) ∧
          (∀ k, st.maxRounds ≤ lookupCount st.roundLimits k →
            lookupCount stF.roundLimits k = lookupCount st.roundLimits k) ∧
          (callsMatchRound st.answerCalls → callsMatchRound stF.answerCalls) ∧
          (∀ b, v = Except.ok b → b = true) ∧
          (∃ t, stF.errorLog = st.errorLog ++ t ∧
            ∀ e ∈ t, (∃ m, e = LogEntry.failure m) ∨
              ∃ kk, e = LogEntry.timeout kk st.maxRounds []) := by
        intro v0 heq hv0
        injection heq with hv hrest
        injection hrest with hst hfs
        subst hst
        subst hv
        refine ⟨hmr, by rw [hcr], by intro h2; rw [hcr]; omega, by intro _; rw [hcr],
          hPmr.2.2, hPmono, ?_, hPbound, hPfrozen, hPcalls, hv0, hPlog⟩
        rw [hcr]
        have e4 : st.currentRound + 1 - st.currentRound = 1 := by omega
        rw [e4, Nat.one_mul]
        exact hPat.2
      by_cases hlt : (processPairs (getAgentPairs agents) st fs).1.currentRound <
          (processPairs (getAgentPairs agents) st fs).1.maxRounds
      · rw [if_pos hlt] at h
        have hlt' : st.currentRound < st.maxRounds := by
          rw [hcr, hmr] at hlt
          exact hlt
        cases hcp : checkPendingQuestions (processPairs (getAgentPairs agents) st fs).2
            agents with
        | error e =>
            simp only [hcp] at h
            injection h with h'
            exact hexit _ h' (by intro b0 hb0; cases hb0)
        | ok pending =>
            simp only [hcp] at h
            by_cases hp : 0 < pending.length
            · rw [if_pos hp] at h
              set st1 : CMState := { (processPairs (getAgentPairs agents) st fs).1 with
                currentRound := (processPairs (getAgentPairs agents) st fs).1.currentRound + 1 }
                with hst1
              obtain ⟨m1, m2, m3, m4, m5, m6, m7, m8, m9, m10, m11, m12⟩ :=
                ih st1 (processPairs (getAgentPairs agents) st fs).2 v stF fsF h
              have p1 : st1.maxRounds = st.maxRounds := by rw [hst1]; exact hmr
              have p2 : st1.currentRound = st.currentRound + 1 := by
                rw [hst1]
                exact congrArg (fun n => n + 1) hcr
              have p3 : st1.roundLimits =
                (processPairs (getAgentPairs agents) st fs).1.roundLimits := by rw [hst1]
              have p4 : st1.errorLog =
                (processPairs (getAgentPairs agents) st fs).1.errorLog := by rw [hst1]
              have p5 : st1.answerCalls =
                (processPairs (getAgentPairs agents) st fs).1.answerCalls := by rw [hst1]
              have p6 : st1.attempts =
                (processPairs (getAgentPairs agents) st fs).1.attempts := by rw [hst1]
              have p7 : st1.errorLogPath = st.errorLogPath := by rw [hst1]; exact hPmr.2.2
              rw [p1] at m1 m3 m4 m8 m9 m12
              rw [p2] at m2 m3 m4 m7
              rw [p3] at m6 m8 m9
              rw [p4] at m12
              rw [p5] at m10
              rw [p6] at m7
              rw [p7] at m5
              refine ⟨m1, by omega, ?_, by intro hge; omega, m5, ?_, ?_, ?_, ?_, ?_,
                m11, ?_⟩
              · intro _
                by_cases hc2 : st.currentRound + 1 < st.maxRounds
                · exact m3 hc2
                · have hge : st.maxRounds ≤ st.currentRound + 1 := by omega
                  rw [m4 hge]
                  omega
              · intro k
                exact (hPmono k).trans (m6 k)
              · have e1 : stF.currentRound + 1 - (st.currentRound + 1) =
                  stF.currentRound - st.currentRound := by omega
                rw [e1] at m7
                have e2 : stF.currentRound + 1 - st.currentRound =
                  (stF.currentRound - st.currentRound) + 1 := by omega
                rw [e2, Nat.succ_mul]
                have hat2 := hPat.2
                generalize hX : (stF.currentRound - st.currentRound) *
                  (getAgentPairs agents).length = X at m7 ⊢
                omega
              · intro hb k
                exact m8 (hPbound hb) k
              · intro k hk
                have hfr := hPfrozen k hk
                have := m9 k (by rw [hfr]; exact hk)
                rw [hfr] at this
                exact this
              · intro hc
                exact m10 (hPcalls hc)
              · obtain ⟨t1, ht1, ha1⟩ := hPlog
                obtain ⟨t2, ht2, ha2⟩ := m12
                rw [ht1] at ht2
                refine ⟨t1 ++ t2, by rw [ht2, List.append_assoc], ?_⟩
                intro e he
                cases List.mem_append.mp he with
                | inl hh => exact ha1 e hh
                | inr hh => exact ha2 e hh
            · rw [if_neg hp] at h
              injection h with h'
              exact hexit _ h' (by intro b0 hb0; injection hb0 with hb; exact hb.symm)
      · rw [if_neg hlt] at h
        injection h with h'
        exact hexit _ h' (by intro b0 hb0; injection hb0 with hb; exact hb.symm)

theorem coordLoop_isSome (agents : List Agent) :
    ∀ fuel st fs, st.maxRounds - st.currentRound < fuel →
      (coordLoop agents fuel st fs).isSome := by
  intro fuel
  induction fuel with
  | zero => intro st fs h; omega
  | succ fuel ih =>
      intro st fs h
      simp only [coordLoop]
      have hcr : (processPairs (getAgentPairs agents) st fs).1.currentRound =
        st.currentRound := (processPairs_preserves (getAgentPairs agents) st fs).2.1
      have hmr : (processPairs (getAgentPairs agents) st fs).1.maxRounds =
        st.maxRounds := (processPairs_preserves (getAgentPairs agents) st fs).1
      by_cases hlt : (processPairs (getAgentPairs agents) st fs).1.currentRound <
          (processPairs (getAgentPairs agents) st fs).1.maxRounds
      · rw [if_pos hlt]
        cases hcp : checkPendingQuestions (processPairs (getAgentPairs agents) st fs).2
            agents with
        | error e => simp
        | ok pending =>
            dsimp only
            by_cases hp : 0 < pending.length
            · rw [if_pos hp]
              apply ih
              have h1 : ({ (processPairs (getAgentPairs agents) st fs).1 with
                currentRound := (processPairs (getAgentPairs agents) st fs).1.currentRound + 1 }
                  : CMState).maxRounds = st.maxRounds := hmr
              have h2 : ({ (processPairs (getAgentPairs agents) st fs).1 with
                currentRound := (processPairs (getAgentPairs agents) st fs).1.currentRound + 1 }
                  : CMState).currentRound = st.currentRound + 1 :=
                congrArg (fun n => n + 1) hcr
              rw [h1, h2]
              rw [hcr, hmr] at hlt
              omega
            · rw [if_neg hp]
              simp
      · rw [if_neg hlt]
        simp

theorem coordLoop_timeout_mem (agents : List Agent) (fuel : Nat) (st : CMState)
    (fs : FS) (v : Except String Bool) (stF : CMState) (fsF : FS)
    (a1 a2 : Agent) (h : coordLoop agents fuel st fs = some (v, stF, fsF))
    (hmem : (a1, a2) ∈ getAgentPairs agents)
    (hcount : st.maxRounds ≤ lookupCount st.roundLimits (pairKey a1 a2)) :
    LogEntry.timeout (pairKey a1 a2) st.maxRounds [] ∈ stF.errorLog := by
  cases fuel with
  | zero => simp [coordLoop] at h
  | succ fuel =>
      simp only [coordLoop] at h
      have hentry := processPairs_timeout_mem (getAgentPairs agents) st fs a1 a2 hmem hcount
      have hexit : ∀ v0, (v0, (processPairs (getAgentPairs agents) st fs).1,
          (processPairs (getAgentPairs agents) st fs).2) = (v, stF, fsF) →
          LogEntry.timeout (pairKey a1 a2) st.maxRounds [] ∈ stF.errorLog := by
        intro v0 heq
        injection heq with hv hrest
        injection hrest with hst hfs
        subst hst
        exact hentry
      by_cases hlt : (processPairs (getAgentPairs agents) st fs).1.currentRound <
          (processPairs (getAgentPairs agents) st fs).1.maxRounds
      · rw [if_pos hlt] at h
        cases hcp : checkPendingQuestions (processPairs (getAgentPairs agents) st fs).2
            agents with
        | error e =>
            simp only [hcp] at h
            injection h with h'
            exact hexit _ h'
        | ok pending =>
            simp only [hcp] at h
            by_cases hp : 0 < pending.length
            · rw [if_pos hp] at h
              have hmain := coordLoop_main agents fuel _ _ _ _ _ h
              obtain ⟨t, ht, _⟩ := hmain.2.2.2.2.2.2.2.2.2.2.2
              rw [ht]
              refine List.mem_append_left _ ?_
              have hlogeq : ({ (processPairs (getAgentPairs agents) st fs).1 with
                currentRound := (processPairs (getAgentPairs agents) st fs).1.currentRound + 1 }
                  : CMState).errorLog =
                (processPairs (getAgentPairs agents) st fs).1.errorLog := rfl
              rw [hlogeq]
              exact hentry
            · rw [if_neg hp] at h
              injection h with h'
              exact hexit _ h'
      · rw [if_neg hlt] at h
        injection h with h'
        exact hexit _ h'

theorem processPairs_docsOk (pairs : List (Agent × Agent)) (agents : List Agent)
    (st : CMState) (fs : FS) (h : DocsOk agents fs) :
    DocsOk agents (processPairs pairs st fs).2 := by
  intro a ha
  obtain ⟨d, hd, hc⟩ := h a ha
  obtain ⟨d', hd', hc'⟩ := processPairs_corrupt pairs st fs a.workingFile d hd
  exact ⟨d', hd', by rw [hc', hc]⟩

theorem checkPendingQuestions_ok (fs : FS) :
    ∀ agents : List Agent, DocsOk agents fs →
      ∃ l, checkPendingQuestions fs agents = Except.ok l := by
  intro agents
  induction agents with
  | nil => intro _; exact ⟨[], rfl⟩
  | cons a rest ih =>
      intro h
      obtain ⟨d, hd, hc⟩ := h a (List.mem_cons_self a rest)
      obtain ⟨l, hl⟩ := ih (fun b hb => h b (List.mem_cons_of_mem a hb))
      refine ⟨d.ledger.filter (fun c => decide (c.status = CommentStatus.pending)) ++ l, ?_⟩
      simp [checkPendingQuestions, readDocComments, hd, hc, hl]

theorem coordLoop_docsOk (agents : List Agent) :
    ∀ fuel st fs, DocsOk agents fs → st.maxRounds - st.currentRound < fuel →
      ∃ stF fsF, coordLoop agents fuel st fs = some (Except.ok true, stF, fsF) := by
  intro fuel
  induction fuel with
  | zero => intro st fs _ h; omega
  | succ fuel ih =>
      intro st fs hdocs h
      simp only [coordLoop]
      have hcr : (processPairs (getAgentPairs agents) st fs).1.currentRound =
        st.currentRound := (processPairs_preserves (getAgentPairs agents) st fs).2.1
      have hmr : (processPairs (getAgentPairs agents) st fs).1.maxRounds =
        st.maxRounds := (processPairs_preserves (getAgentPairs agents) st fs).1
      have hdocs' : DocsOk agents (processPairs (getAgentPairs agents) st fs).2 :=
        processPairs_docsOk (getAgentPairs agents) agents st fs hdocs
      by_cases hlt : (processPairs (getAgentPairs agents) st fs).1.currentRound <
          (processPairs (getAgentPairs agents) st fs).1.maxRounds
      · rw [if_pos hlt]
        obtain ⟨l, hl⟩ := checkPendingQuestions_ok
          (processPairs (getAgentPairs agents) st fs).2 agents hdocs'
        rw [hl]
        dsimp only
        by_cases hp : 0 < l.length
        · rw [if_pos hp]
          apply ih
          · exact hdocs'
          · have h1 : ({ (processPairs (getAgentPairs agents) st fs).1 with
              currentRound := (processPairs (getAgentPairs agents) st fs).1.currentRound + 1 }
                : CMState).maxRounds = st.maxRounds := hmr
            have h2 : ({ (processPairs (getAgentPairs agents) st fs).1 with
              currentRound := (processPairs (getAgentPairs agents) st fs).1.currentRound + 1 }
                : CMState).currentRound = st.currentRound + 1 :=
              congrArg (fun n => n + 1) hcr
            rw [h1, h2]
            rw [hcr, hmr] at hlt
            omega
        · rw [if_neg hp]
          exact ⟨_, _, rfl⟩
      · rw [if_neg hlt]
        exact ⟨_, _, rfl⟩

theorem getAgentPairs_length (agents : List Agent) :
    2 * (getAgentPairs agents).length = agents.length * (agents.length - 1) := by
  induction agents with
  | nil => rfl
  | cons a rest ih =>
      simp only [getAgentPairs, List.length_append, List.length_map, List.length_cons]
      cases hn : rest.length with
      | zero =>
          rw [hn] at ih
          omega
      | succ m =>
          rw [hn] at ih
          simp only [Nat.succ_sub_one] at ih ⊢
          have h2 : 2 * (m + 1 + (getAgentPairs rest).length) =
            2 * (m + 1) + 2 * (getAgentPairs rest).length := by ring
          rw [h2, ih]
          ring

/-! Auxiliary facts used by the claim theorems. -/

theorem string_append_right_cancel (a b c : String) (h : a ++ c = b ++ c) : a = b := by
  have hd : a.data ++ c.data = b.data ++ c.data := by
    have h2 := congrArg String.data h
    rwa [String.data_append, String.data_append] at h2
  have h3 : a.data = b.data := List.append_cancel_right hd
  cases a
  cases b
  exact congrArg String.mk h3

/-! Claim theorems. -/

/-- C1: for every agent set and every round budget k of the manager
(currentRound starting at 1, 1 ≤ k as in the source where k is always 3),
startCoordinationRound terminates — the loop returns a value — after at
most k rounds, and issues at most k * n*(n-1)/2 pair-processing attempts
for n agents. -/
theorem coordination_terminates_within_round_budget
    (agents : List Agent) (st : CMState) (fs : FS) (k : Nat)
    (h1 : st.currentRound = 1) (h2 : st.maxRounds = k) (h3 : 1 ≤ k)
    (h4 : st.attempts = 0) :
    (startCoordinationRound agents st fs).isSome = true ∧
    (runFinal (startCoordinationRound agents st fs)).currentRound ≤ k ∧
    (runFinal (startCoordinationRound agents st fs)).attempts ≤
      k * ((agents.length * (agents.length - 1)) / 2) := by
  have hsome : (coordLoop agents (st.maxRounds + 1) st fs).isSome = true := by
    apply coordLoop_isSome
    omega
  obtain ⟨r, hr⟩ := Option.isSome_iff_exists.mp hsome
  obtain ⟨v, stF, fsF⟩ := r
  have hmain := coordLoop_main agents (st.maxRounds + 1) st fs v stF fsF hr
  obtain ⟨m1, m2, m3, m4, m5, m6, m7, m8, m9, m10, m11, m12⟩ := hmain
  have hstart : startCoordinationRound agents st fs = some (v, stF, fsF) := hr
  rw [hstart]
  have hfin : runFinal (some (v, stF, fsF)) = stF := rfl
  rw [hfin]
  have hcr : stF.currentRound ≤ k := by
    by_cases hk : st.currentRound < st.maxRounds
    · have := m3 hk
      omega
    · have := m4 (by omega)
      omega
  refine ⟨rfl, hcr, ?_⟩
  have hP := getAgentPairs_length agents
  have hPdiv : (getAgentPairs agents).length =
    (agents.length * (agents.length - 1)) / 2 := by omega
  have hcoeff : stF.currentRound + 1 - st.currentRound = stF.currentRound := by omega
  rw [hcoeff] at m7
  rw [h4] at m7
  calc stF.attempts ≤ 0 + stF.currentRound * (getAgentPairs agents).length := m7
    _ = stF.currentRound * (getAgentPairs agents).length := by omega
    _ ≤ k * (getAgentPairs agents).length := Nat.mul_le_mul_right _ hcr
    _ = k * ((agents.length * (agents.length - 1)) / 2) := by rw [hPdiv]

theorem coordination_terminates_within_round_budget_witness :
    (startCoordinationRound agentsOkAB mkCoordinationManagerDefault fsC7).isSome = true ∧
    (runFinal (startCoordinationRound agentsOkAB mkCoordinationManagerDefault
      fsC7)).currentRound ≤ 3 ∧
    (runFinal (startCoordinationRound agentsOkAB mkCoordinationManagerDefault
      fsC7)).attempts ≤ 3 * ((agentsOkAB.length * (agentsOkAB.length - 1)) / 2) :=
  coordination_terminates_within_round_budget agentsOkAB mkCoordinationManagerDefault
    fsC7 3 rfl rfl (by decide) rfl

/-- C2 counterexample: in the retry scenario the Comment with id 1 stays
pending for the whole run (its answer production failed in round 1), the
pair's budget is far from exhausted (counter 1 of 3), rounds 2 and 3 do
start — yet the only answer-production invocation of the entire run is
the round-1 one: the rounds that follow never attempt the still-pending
Comment, because checkForQuestions filters on round = currentRound. -/
theorem stale_pending_comment_not_reattempted_counterexample :
    runRetOk runC2 = true ∧
    (runFinal runC2).currentRound = 3 ∧
    lookupCount (runFinal runC2).roundLimits "A-B" = 1 ∧
    (runFinal runC2).answerCalls = [mkCallRecord "B" 1 1 1] ∧
    lookupDoc (runFS runC2) "output/A-analysis.md" =
      some { ledger := [mkComment 1 "A" "B" 1], corrupt := false } := by
  decide

/-- C2 amended: the Coordination Manager attempts, for each pair still
under budget, exactly the pending Comments whose round field equals the
current round number: (a) any such Comment in the asking agent's readable
document has the target agent's answer production invoked for it in that
round, and (b) every answer-production invocation of a run is for a
Comment whose round field equals the round in which the call is made, so
a Comment left pending from an earlier round is never re-attempted. -/
theorem answer_production_matches_current_round :
    (∀ (a1 a2 : Agent) (key : String) (st : CMState) (fs : FS)
      (comments : List Comment) (c : Comment),
      readDocComments fs a1.workingFile = Except.ok comments →
      c ∈ comments → c.targetAgent = a2.name →
      c.status = CommentStatus.pending → c.round = st.currentRound →
      mkCallRecord a2.name c.id c.round st.currentRound ∈
        (facilitateCoordination a1 a2 key st fs).1.answerCalls) ∧
    (∀ (agents : List Agent) (st : CMState) (fs : FS)
      (v : Except String Bool) (stF : CMState) (fsF : FS),
      startCoordinationRound agents st fs = some (v, stF, fsF) →
      callsMatchRound st.answerCalls → callsMatchRound stF.answerCalls) := by
  refine ⟨facilitateCoordination_record, ?_⟩
  intro agents st fs v stF fsF h hinv
  exact (coordLoop_main agents (st.maxRounds + 1) st fs v stF fsF
    h).2.2.2.2.2.2.2.2.2.1 hinv

theorem answer_production_matches_current_round_witness :
    mkCallRecord "B" 1 1 1 ∈
      (facilitateCoordination (agentFail "A") (agentFail "B") "A-B"
        mkCoordinationManagerDefault fsC2).1.answerCalls ∧
    callsMatchRound (runFinal runC2).answerCalls := by
  constructor
  · exact answer_production_matches_current_round.1 (agentFail "A") (agentFail "B")
      "A-B" mkCoordinationManagerDefault fsC2 [mkComment 1 "A" "B" 1]
      (mkComment 1 "A" "B" 1) (by decide) (by decide) (by decide) (by decide) (by decide)
  · exact answer_production_matches_current_round.2 agentsAB
      mkCoordinationManagerDefault fsC2 (Except.ok true) (runFinal runC2) (runFS runC2)
      (by decide) (by intro r hr; cases hr)

/-- C3 counterexample: with bidirectional questions for rounds 1 and 2 and
all answer production failing, the pair counter is incremented once per
direction per round and reaches 4, exceeding maxRounds = 3. -/
theorem pair_round_counter_exceeds_maxRounds_counterexample :
    runRetOk runC3 = true ∧
    (runFinal runC3).maxRounds = 3 ∧
    lookupCount (runFinal runC3).roundLimits "A-B" = 4 := by
  decide

/-- C3 amended: every pair's round counter is monotonically non-decreasing
at each step and over the whole session, and never exceeds maxRounds + 1
(the skip guard admits a pair at count maxRounds - 1, and that pair can
then be incremented once per direction, overshooting the budget by one). -/
theorem pair_round_counter_monotone_bounded :
    (∀ (a1 a2 : Agent) (key : String) (st : CMState) (fs : FS) (k : String),
      lookupCount st.roundLimits k ≤
        lookupCount (facilitateCoordination a1 a2 key st fs).1.roundLimits k) ∧
    (∀ (pairs : List (Agent × Agent)) (st : CMState) (fs : FS) (k : String),
      lookupCount st.roundLimits k ≤
        lookupCount (processPairs pairs st fs).1.roundLimits k) ∧
    (∀ (agents : List Agent) (st : CMState) (fs : FS)
      (v : Except String Bool) (stF : CMState) (fsF : FS),
      startCoordinationRound agents st fs = some (v, stF, fsF) →
      (∀ k, lookupCount st.roundLimits k ≤ lookupCount stF.roundLimits k) ∧
      ((∀ k, lookupCount st.roundLimits k ≤ st.maxRounds + 1) →
        ∀ k, lookupCount stF.roundLimits k ≤ st.maxRounds + 1)) := by
  refine ⟨?_, processPairs_counts_mono, ?_⟩
  · intro a1 a2 key st fs k
    by_cases hk : k = key
    · subst hk
      exact (facilitateCoordination_counts_key a1 a2 k st fs).1
    · rw [facilitateCoordination_counts_ne a1 a2 key st fs k hk]
  · intro agents st fs v stF fsF h
    have hmain := coordLoop_main agents (st.maxRounds + 1) st fs v stF fsF h
    exact ⟨hmain.2.2.2.2.2.1, hmain.2.2.2.2.2.2.2.1⟩

theorem pair_round_counter_monotone_bounded_witness :
    lookupCount mkCoordinationManagerDefault.roundLimits "A-B" ≤
      lookupCount (facilitateCoordination (agentFail "A") (agentFail "B") "A-B"
        mkCoordinationManagerDefault fsC3).1.roundLimits "A-B" ∧
    (∀ k, lookupCount mkCoordinationManagerDefault.roundLimits k ≤
      lookupCount (runFinal runC3).roundLimits k) ∧
    (∀ k, lookupCount (runFinal runC3).roundLimits k ≤
      mkCoordinationManagerDefault.maxRounds + 1) := by
  refine ⟨pair_round_counter_monotone_bounded.1 (agentFail "A") (agentFail "B") "A-B"
    mkCoordinationManagerDefault fsC3 "A-B", ?_, ?_⟩
  · exact (pair_round_counter_monotone_bounded.2.2 agentsAB mkCoordinationManagerDefault
      fsC3 (Except.ok true) (runFinal runC3) (runFS runC3) (by decide)).1
  · exact (pair_round_counter_monotone_bounded.2.2 agentsAB mkCoordinationManagerDefault
      fsC3 (Except.ok true) (runFinal runC3) (runFS runC3) (by decide)).2
      (by intro k; simp [mkCoordinationManagerDefault, mkCoordinationManager, lookupCount])

/-- C4 counterexample: in the budget scenario the pair A-B is skipped in
round 3 with a coordination-timeout entry — but the entry lists zero
pending questions (the call site passes an empty array), even though both
of A's questions for B are still pending in A's document; the Comments
still pending for the pair are not enumerated. -/
theorem timeout_entry_lists_no_questions_counterexample :
    runRetOk runC3 = true ∧
    (runFinal runC3).errorLog =
      [LogEntry.failure "Error processing question from A to B: answer producer failed",
       LogEntry.failure "Error processing question from B to A: answer producer failed",
       LogEntry.failure "Error processing question from A to B: answer producer failed",
       LogEntry.failure "Error processing question from B to A: answer producer failed",
       LogEntry.timeout "A-B" 3 []] ∧
    lookupDoc (runFS runC3) "output/A-analysis.md" =
      some { ledger := [mkComment 1 "A" "B" 1, mkComment 2 "A" "B" 2], corrupt := false } := by
  decide

/-- C4 amended: a pair whose round counter has reached maxRounds at the
start of a round is skipped — its counter never changes again — and a
coordination-timeout entry naming the pair and the budget is recorded,
but with an always-empty question list: the Comments still pending for
the pair are not enumerated (every timeout entry of a run whose log
starts with no non-empty timeout entry has an empty question list). -/
theorem exhausted_pair_skipped_and_timeout_logged :
    (∀ (agents : List Agent) (st : CMState) (fs : FS)
      (v : Except String Bool) (stF : CMState) (fsF : FS) (a1 a2 : Agent),
      startCoordinationRound agents st fs = some (v, stF, fsF) →
      (a1, a2) ∈ getAgentPairs agents →
      st.maxRounds ≤ lookupCount st.roundLimits (pairKey a1 a2) →
      LogEntry.timeout (pairKey a1 a2) st.maxRounds [] ∈ stF.errorLog ∧
      lookupCount stF.roundLimits (pairKey a1 a2) =
        lookupCount st.roundLimits (pairKey a1 a2)) ∧
    (∀ (agents : List Agent) (st : CMState) (fs : FS)
      (v : Except String Bool) (stF : CMState) (fsF : FS),
      startCoordinationRound agents st fs = some (v, stF, fsF) →
      timeoutsEmpty st.errorLog → timeoutsEmpty stF.errorLog) := by
  constructor
  · intro agents st fs v stF fsF a1 a2 h hmem hcount
    refine ⟨coordLoop_timeout_mem agents (st.maxRounds + 1) st fs v stF fsF a1 a2
      h hmem hcount, ?_⟩
    exact (coordLoop_main agents (st.maxRounds + 1) st fs v stF fsF
      h).2.2.2.2.2.2.2.2.1 (pairKey a1 a2) hcount
  · intro agents st fs v stF fsF h hempty
    obtain ⟨t, ht, hall⟩ := (coordLoop_main agents (st.maxRounds + 1) st fs v stF fsF
      h).2.2.2.2.2.2.2.2.2.2.2
    intro k m qs hmem
    rw [ht] at hmem
    cases List.mem_append.mp hmem with
    | inl hm => exact hempty k m qs hm
    | inr hm =>
        cases hall _ hm with
        | inl hf =>
            obtain ⟨msg, hmsg⟩ := hf
            cases hmsg
        | inr htm =>
            obtain ⟨kk, hkk⟩ := htm
            injection hkk with e1 e2 e3

theorem exhausted_pair_skipped_and_timeout_logged_witness :
    (LogEntry.timeout "A-B" 3 [] ∈ (runFinal runC4w).errorLog ∧
      lookupCount (runFinal runC4w).roundLimits "A-B" =
        lookupCount stC4w.roundLimits "A-B") ∧
    timeoutsEmpty (runFinal runC4w).errorLog := by
  constructor
  · have := exhausted_pair_skipped_and_timeout_logged.1 agentsAB stC4w fsC2
      (Except.ok true) (runFinal runC4w) (runFS runC4w) (agentFail "A") (agentFail "B")
      (by decide) (List.mem_singleton.mpr rfl) (by decide)
    exact this
  · exact exhausted_pair_skipped_and_timeout_logged.2 agentsAB stC4w fsC2
      (Except.ok true) (runFinal runC4w) (runFS runC4w) (by decide)
      (by intro k m qs hm; cases hm)

/-- C5: per-Comment failures are isolated: (general part) whenever every
participating document is readable, the whole run completes and returns
true no matter how many answer productions or response writes fail; and
(scenario part) with agents A, B, C where B's answer production always
throws, a single pair-processing round resolves C's question to A with
A's answer while A's question to B stays pending and the failure is
logged — the (A,B) failure aborts neither the other pair nor the run. -/
theorem comment_failure_isolation :
    (∀ (agents : List Agent) (st : CMState) (fs : FS), DocsOk agents fs →
      ∃ stF fsF, startCoordinationRound agents st fs =
        some (Except.ok true, stF, fsF)) ∧
    (lookupDoc roundC5.2 "output/C-analysis.md" =
      some { ledger := [mkResolved 2 "C" "A" 1 "answer from A"], corrupt := false } ∧
    lookupDoc roundC5.2 "output/A-analysis.md" =
      some { ledger := [mkComment 1 "A" "B" 1], corrupt := false } ∧
    roundC5.1.errorLog =
      [LogEntry.failure "Error processing question from A to B: answer producer failed"] ∧
    runRetOk runC5 = true) := by
  constructor
  · intro agents st fs h
    exact coordLoop_docsOk agents (st.maxRounds + 1) st fs h (by omega)
  · exact ⟨by decide, by decide, by decide, by decide⟩

theorem comment_failure_isolation_witness :
    runRetOk (startCoordinationRound agentsC5 mkCoordinationManagerDefault fsC5) =
      true := by
  have hdocs : DocsOk agentsC5 fsC5 := by
    intro a ha
    simp only [agentsC5, List.mem_cons, List.not_mem_nil, or_false] at ha
    rcases ha with rfl | rfl | rfl
    · exact ⟨_, rfl, rfl⟩
    · exact ⟨_, rfl, rfl⟩
    · exact ⟨_, rfl, rfl⟩
  obtain ⟨stF, fsF, h⟩ := comment_failure_isolation.1 agentsC5
    mkCoordinationManagerDefault fsC5 hdocs
  rw [h]
  rfl

/-- C6: when the convergence check after a round finds no pending Comment
anywhere (whatever the round fields), no further round starts: (general
part) if checkPendingQuestions over the documents produced by the round
returns the empty list, startCoordinationRound returns right after that
round; and (scenario part) in the two-agent convergence scenario the one
Comment is resolved in round 1 and the run ends with currentRound still
1 — exactly one round. -/
theorem convergence_prevents_second_round :
    (∀ (agents : List Agent) (st : CMState) (fs : FS),
      checkPendingQuestions (processPairs (getAgentPairs agents) st fs).2 agents =
        Except.ok [] →
      startCoordinationRound agents st fs =
        some (Except.ok true, (processPairs (getAgentPairs agents) st fs).1,
          (processPairs (getAgentPairs agents) st fs).2)) ∧
    (runRetOk runC6 = true ∧
    (runFinal runC6).currentRound = 1 ∧
    lookupDoc (runFS runC6) "output/A-analysis.md" =
      some { ledger := [mkResolved 1 "A" "B" 1 "answer from B"], corrupt := false }) := by
  constructor
  · intro agents st fs h
    show coordLoop agents (st.maxRounds + 1) st fs = _
    simp only [coordLoop]
    by_cases hlt : (processPairs (getAgentPairs agents) st fs).1.currentRound <
        (processPairs (getAgentPairs agents) st fs).1.maxRounds
    · rw [if_pos hlt, h]
      simp
    · rw [if_neg hlt]
  · exact ⟨by decide, by decide, by decide⟩

theorem convergence_prevents_second_round_witness :
    startCoordinationRound agentsOkAB mkCoordinationManagerDefault fsC6 =
      some (Except.ok true,
        (processPairs (getAgentPairs agentsOkAB) mkCoordinationManagerDefault fsC6).1,
        (processPairs (getAgentPairs agentsOkAB) mkCoordinationManagerDefault fsC6).2) :=
  convergence_prevents_second_round.1 agentsOkAB mkCoordinationManagerDefault fsC6
    (by decide)

/-- C7 counterexample: two runs that differ in their per-pair exchange
counts (0 versus 1 for the pair A-B) and in their number of unresolved
Comments (0 versus 1) both return exactly the Boolean true — the value
startCoordinationRound returns is the literal true and contains neither
per-pair counts nor an unresolved total, so it is not a summary. -/
theorem return_value_carries_no_summary_counterexample :
    runRetOk runC7 = true ∧
    runRetOk runC2 = true ∧
    lookupCount (runFinal runC7).roundLimits "A-B" = 0 ∧
    lookupCount (runFinal runC2).roundLimits "A-B" = 1 ∧
    pendingTotal (runFS runC7) = 0 ∧
    pendingTotal (runFS runC2) = 1 := by
  decide

/-- C7 amended: whenever the coordination loop terminates without an
uncaught convergence-check error (by convergence or by exhausting the
round budget), startCoordinationRound returns the Boolean literal true;
per-pair counts stay in roundLimits and unresolved Comments stay in the
documents, neither is part of the return value. -/
theorem run_returns_boolean_true
    (agents : List Agent) (st : CMState) (fs : FS) (stF : CMState) (fsF : FS)
    (b : Bool)
    (h : startCoordinationRound agents st fs = some (Except.ok b, stF, fsF)) :
    b = true :=
  (coordLoop_main agents (st.maxRounds + 1) st fs (Except.ok b) stF fsF
    h).2.2.2.2.2.2.2.2.2.2.1 b rfl

theorem run_returns_boolean_true_witness :
    runRetOk runC7 = true ∧ true = true :=
  ⟨by decide, run_returns_boolean_true agentsOkAB mkCoordinationManagerDefault fsC7
    (runFinal runC7) (runFS runC7) true (by decide)⟩

/-- C8 counterexample: the CoordinationManager constructor has a single
parameter, outputDir; a caller attempting to supply a round budget (here
the value 5 as the only constructor argument) only changes the error-log
path, and the budget of the constructed manager is still 3 — maxRounds is
not configurable. -/
theorem maxRounds_not_configurable_counterexample :
    (mkCoordinationManager "5").maxRounds = 3 ∧
    (mkCoordinationManager "5").errorLogPath = "5/error-log.md" ∧
    mkCoordinationManagerDefault.maxRounds = 3 := by
  decide

/-- C8 amended: maxRounds is hard-coded: the constructor accepts only the
outputDir argument (default value output), every constructed manager has
maxRounds = 3 and currentRound = 1, and no caller-supplied round budget
exists. -/
theorem maxRounds_hardcoded_three :
    ∀ outputDir : String,
      (mkCoordinationManager outputDir).maxRounds = 3 ∧
      (mkCoordinationManager outputDir).currentRound = 1 ∧
      mkCoordinationManagerDefault = mkCoordinationManager "output" := by
  intro outputDir
  exact ⟨rfl, rfl, rfl⟩

/-- C9: resolution is idempotent and one-way: resolving an already
resolved Comment is a no-op that keeps the first response, so
resolve(resolve(c, r1), r2) = resolve(c, r1) both on single Comments and
through a ledger located by id; the status transition is exactly
pending to resolved, setting the response, and never backward. -/
theorem resolveComment_idempotent_one_way :
    (∀ (c : Comment) (r1 r2 : String),
      resolveComment (resolveComment c r1) r2 = resolveComment c r1) ∧
    (∀ (c : Comment) (r : String), c.status = CommentStatus.pending →
      (resolveComment c r).status = CommentStatus.resolved ∧
      (resolveComment c r).response = some r) ∧
    (∀ (c : Comment) (r : String), c.status = CommentStatus.resolved →
      resolveComment c r = c) ∧
    (∀ (L : List Comment) (id : Nat) (r1 r2 : String),
      resolveInLedger (resolveInLedger L id r1) id r2 = resolveInLedger L id r1) := by
  have hone : ∀ (c : Comment) (r1 r2 : String),
      resolveComment (resolveComment c r1) r2 = resolveComment c r1 := by
    intro c r1 r2
    unfold resolveComment
    by_cases hc : c.status = CommentStatus.pending
    · rw [if_pos hc]
      simp
    · rw [if_neg hc, if_neg hc]
  refine ⟨hone, ?_, ?_, ?_⟩
  · intro c r hc
    unfold resolveComment
    rw [if_pos hc]
    exact ⟨rfl, rfl⟩
  · intro c r hc
    unfold resolveComment
    rw [if_neg (by rw [hc]; intro h2; cases h2)]
  · intro L id r1 r2
    unfold resolveInLedger
    rw [List.map_map]
    apply List.map_congr_left
    intro c _
    simp only [Function.comp]
    by_cases hid : c.id = id
    · rw [if_pos hid]
      have hidp : (resolveComment c r1).id = c.id := by
        unfold resolveComment
        by_cases hc : c.status = CommentStatus.pending
        · rw [if_pos hc]
        · rw [if_neg hc]
      rw [if_pos (by rw [hidp]; exact hid)]
      exact hone c r1 r2
    · rw [if_neg hid, if_neg hid]

theorem resolveComment_idempotent_one_way_witness :
    resolveComment (resolveComment (mkComment 1 "A" "B" 1) "r1") "r2" =
      resolveComment (mkComment 1 "A" "B" 1) "r1" ∧
    (resolveComment (mkComment 1 "A" "B" 1) "r1").status = CommentStatus.resolved ∧
    resolveComment (mkResolved 1 "A" "B" 1 "r1") "r2" = mkResolved 1 "A" "B" 1 "r1" :=
  ⟨resolveComment_idempotent_one_way.1 (mkComment 1 "A" "B" 1) "r1" "r2",
   (resolveComment_idempotent_one_way.2.1 (mkComment 1 "A" "B" 1) "r1" (by decide)).1,
   resolveComment_idempotent_one_way.2.2.1 (mkResolved 1 "A" "B" 1 "r1") "r2" (by decide)⟩

/-- C10: answered questions are written to the fixed path
output/agentName-analysis.md: findAgentFile joins the constant directory
output with the asking agent's name, processQuestions touches no other
path, the outputDir constructor argument changes only the error-log path
of the manager state, and for any outputDir other than output the write
target differs from the asking agent's working document
outputDir/agentName-analysis.md; in the concrete outputDir = custom run
the answer write goes to the absent output/A-analysis.md (a logged
StorageError) and A's working document keeps the Comment pending. -/
theorem answers_written_to_constant_output_path :
    (∀ name : String, findAgentFile name = createWorkingFilePath name "output") ∧
    findAgentFile "A" = "output/A-analysis.md" ∧
    (∀ d : String, mkCoordinationManager d =
      { mkCoordinationManagerDefault with errorLogPath := d ++ "/error-log.md" }) ∧
    (∀ (a : Agent) (qs : List Comment) (ask : String) (st : CMState) (fs : FS)
      (p : String), p ≠ findAgentFile ask →
      lookupDoc (processQuestions a qs ask st fs).2 p = lookupDoc fs p) ∧
    (∀ (d name : String), d ≠ "output" →
      findAgentFile name ≠ createWorkingFilePath name d) ∧
    (runRetOk runC10 = true ∧
    lookupDoc (runFS runC10) "custom/A-analysis.md" =
      some { ledger := [mkComment 1 "A" "B" 1], corrupt := false } ∧
    LogEntry.failure
      "Error processing question from A to B: StorageError: unreadable document output/A-analysis.md"
      ∈ (runFinal runC10).errorLog) := by
  refine ⟨fun _ => rfl, by decide, fun _ => rfl, processQuestions_fs_ne, ?_,
    by decide, by decide, by decide⟩
  intro d name hd heq
  apply hd
  have heq2 : (("output" ++ "/" ++ name) ++ "-analysis.md" : String) =
      (d ++ "/" ++ name) ++ "-analysis.md" := heq
  have h1 : ("output" ++ "/" ++ name : String) = d ++ "/" ++ name :=
    string_append_right_cancel _ _ _ heq2
  have h2 : ("output" ++ "/" : String) = d ++ "/" :=
    string_append_right_cancel _ _ _ h1
  have h3 : ("output" : String) = d := string_append_right_cancel _ _ _ h2
  exact h3.symm

theorem answers_written_to_constant_output_path_witness :
    lookupDoc (processQuestions (agentOk "B") [mkComment 1 "A" "B" 1] "A"
      mkCoordinationManagerDefault fsC10).2 "custom/B-analysis.md" =
      lookupDoc fsC10 "custom/B-analysis.md" ∧
    findAgentFile "A" ≠ createWorkingFilePath "A" "custom" :=
  ⟨answers_written_to_constant_output_path.2.2.2.1 (agentOk "B")
    [mkComment 1 "A" "B" 1] "A" mkCoordinationManagerDefault fsC10
    "custom/B-analysis.md" (by decide),
   answers_written_to_constant_output_path.2.2.2.2.1 "custom" "A" (by decide)⟩
